import Mathlib

/-!
# Bizl order-lookup service (`src/index.js`)

A shallow embedding of the Express application in `src/index.js`:

* the regular expressions of the `/order/:shopifyOrder` handler, as data for a
  small backtracking matcher with the matching rules of JavaScript regular
  expressions (leftmost match, greedy quantifiers, `i` flag);
* the login retry logic of `loginBot`;
* the CORS origin callback;
* the middleware chain in registration order and the route handlers.

Strings are Lean strings.  The patterns of the source only mention ASCII
characters and the source never uses the `u` flag, so matching over Unicode
scalar values agrees with matching over UTF-16 code units.
-/

deriving instance DecidableEq for Except

namespace Bizl

/-! ## Regular expressions -/

/-- An atom of a character class: `\s`, `\d`, `\w`, or a single character. -/
inductive ClassAtom
  | space
  | digit
  | word
  | char (c : Char)
  deriving DecidableEq, Repr

/-- The characters matched by `\s` in JavaScript (WhiteSpace and LineTerminator). -/
def isJsSpace (c : Char) : Bool :=
  let n := c.toNat
  n == 0x09 || n == 0x0A || n == 0x0B || n == 0x0C || n == 0x0D || n == 0x20 ||
  n == 0xA0 || n == 0x1680 || (0x2000 ≤ n && n ≤ 0x200A) || n == 0x2028 ||
  n == 0x2029 || n == 0x202F || n == 0x205F || n == 0x3000 || n == 0xFEFF

/-- The characters matched by `\d`: `0`..`9`. -/
def isJsDigit (c : Char) : Bool :=
  0x30 ≤ c.toNat && c.toNat ≤ 0x39

/-- The characters matched by `\w` (no `u` flag): `A`..`Z`, `a`..`z`, `0`..`9`, `_`. -/
def isJsWord (c : Char) : Bool :=
  (0x41 ≤ c.toNat && c.toNat ≤ 0x5A) || (0x61 ≤ c.toNat && c.toNat ≤ 0x7A) ||
  isJsDigit c || c.toNat == 0x5F

/-- Canonicalisation of a character under the `i` flag without the `u` flag, as
far as it can be observed against ASCII pattern characters: ASCII letters are
upper-cased; a non-ASCII character is never mapped to an ASCII one. -/
def canonicalize (ignoreCase : Bool) (c : Char) : Char :=
  if ignoreCase then c.toUpper else c

/-- Does the character `x` of the input match the pattern character `c`? -/
def charMatches (ignoreCase : Bool) (c x : Char) : Bool :=
  canonicalize ignoreCase c == canonicalize ignoreCase x

/-- Does the character `x` belong to the class atom? -/
def ClassAtom.test (ignoreCase : Bool) : ClassAtom → Char → Bool
  | .space, x => isJsSpace x
  | .digit, x => isJsDigit x
  | .word, x => isJsWord x
  | .char c, x => charMatches ignoreCase c x

/-- A character class `[...]` is the union of its atoms. -/
abbrev CharClass := List ClassAtom

/-- Membership of a character in a class. -/
def classTest (ignoreCase : Bool) (cls : CharClass) (x : Char) : Bool :=
  cls.any fun a => a.test ignoreCase x

/-- The pieces the patterns of the source are built from: a literal character,
a greedy `X*` over a class, and the capturing group `(X+)` over a class. -/
inductive Node
  | lit (c : Char)
  | star (cls : CharClass)
  | group (cls : CharClass)
  deriving DecidableEq, Repr

/-- A regular expression: a sequence of nodes and the `i` flag. -/
structure Regex where
  nodes : List Node
  ignoreCase : Bool
  deriving DecidableEq, Repr

/-- Greedy iteration with backtracking: consume as many characters of the class
as possible, then run the continuation `k`; when it fails give one character
back and try again.  `k` receives the consumed characters and the rest. -/
def greedy (test : Char → Bool) (k : List Char → List Char → Option (List Char)) :
    List Char → List Char → Option (List Char)
  | taken, [] => k taken []
  | taken, x :: xs =>
    if test x then
      match greedy test k (taken ++ [x]) xs with
      | some cap => some cap
      | none => k taken (x :: xs)
    else k taken (x :: xs)

/-- Match the nodes at the start of the input.  The result is the text captured
by group 1, the only group of each pattern of the source (empty when the nodes
hold no group). -/
def matchHere (ignoreCase : Bool) : List Node → List Char → Option (List Char)
  | [] => fun _ => some []
  | .lit c :: ns => fun xs =>
    match xs with
    | [] => none
    | x :: rest => if charMatches ignoreCase c x then matchHere ignoreCase ns rest else none
  | .star cls :: ns => fun xs =>
    greedy (classTest ignoreCase cls) (fun _ rest => matchHere ignoreCase ns rest) [] xs
  | .group cls :: ns => fun xs =>
    greedy (classTest ignoreCase cls)
      (fun taken rest =>
        if taken.isEmpty then none else (matchHere ignoreCase ns rest).map fun _ => taken)
      [] xs

/-- The leftmost match: try every start position from left to right. -/
def searchFrom (re : Regex) : List Char → Option (List Char)
  | [] => matchHere re.ignoreCase re.nodes []
  | x :: xs =>
    match matchHere re.ignoreCase re.nodes (x :: xs) with
    | some cap => some cap
    | none => searchFrom re xs

/-- The value of `str.match(re)` reduced to what the source reads from it:
`none` for `null`, otherwise element `[1]` of the match array. -/
def Regex.capture (re : Regex) (str : String) : Option String :=
  (searchFrom re str.data).map String.mk

/-- The literal characters of a pattern. -/
def lits (s : String) : List Node :=
  s.data.map Node.lit

/-- The pattern `/Shopify_order:\s*(\d+)/`. -/
def reShopifyOrder : Regex :=
  ⟨lits "Shopify_order:" ++ [.star [.space], .group [.digit]], false⟩

/-- The pattern `/Estado Actual:\s*([\w_]+)/`. -/
def reEstadoActual : Regex :=
  ⟨lits "Estado Actual:" ++ [.star [.space], .group [.word, .char '_']], false⟩

/-- The pattern `/SMR URL:\s*([\w\d]+)/i`. -/
def reSmrUrl : Regex :=
  ⟨lits "SMR URL:" ++ [.star [.space], .group [.word, .digit]], true⟩

/-- The pattern `/Customer_Tel:\s*([\+\d]+)/i`. -/
def reCustomerTel : Regex :=
  ⟨lits "Customer_Tel:" ++ [.star [.space], .group [.char '+', .digit]], true⟩

/-! ## Data model -/

/-- An embed of a message; `description` is `none` when the embed carries no
description (`null` in the client library). -/
structure Embed where
  description : Option String
  deriving DecidableEq, Repr

/-- A channel message as the handler reads it: `content` and `embeds`. -/
structure Message where
  content : String
  embeds : List Embed
  deriving DecidableEq, Repr

/-- The JSON values the handlers send: `null` and strings. -/
inductive JVal
  | null
  | str (s : String)
  deriving DecidableEq, Repr

/-- A response body: none (`res.end()`), text (`res.send`), or a JSON object
(`res.json`) as its fields in order. -/
inductive Body
  | empty
  | text (s : String)
  | json (fields : List (String × JVal))
  deriving DecidableEq, Repr

/-- An HTTP response: status code and body. -/
structure Response where
  status : Nat
  body : Body
  deriving DecidableEq, Repr

/-- Observable actions of the program. -/
inductive Effect
  | log (msg : String)
  | login
  | setTimeout (ms : Nat)
  | exit (code : Nat)
  | fetchChannel
  | fetchMessages (limit : Nat)
  deriving DecidableEq, Repr

/-- The module-level variables `botReady` and `reconnectAttempts`. -/
structure State where
  botReady : Bool
  reconnectAttempts : Nat
  deriving DecidableEq, Repr

/-- The state at start-up: `botReady = false`, `reconnectAttempts = 0`. -/
def State.init : State := ⟨false, 0⟩

/-! ## Session manager: `loginBot` -/

/-- The constant `maxReconnectAttempts`. -/
def maxReconnectAttempts : Nat := 5

/-- The `catch` callback of `loginBot`: log, count the failure, then either
schedule `loginBot` again after 5000 ms or exit with code 1. -/
def loginFailed (s : State) : State × List Effect :=
  let s1 : State := { s with reconnectAttempts := s.reconnectAttempts + 1 }
  if s1.reconnectAttempts < maxReconnectAttempts then
    (s1, [.log "Failed to login:", .setTimeout 5000])
  else
    (s1, [.log "Failed to login:", .exit 1])

/-- One call of `loginBot`; `ok` tells whether the promise of `client.login`
resolves (`true`) or rejects (`false`). -/
def loginBot (ok : Bool) (s : State) : State × List Effect :=
  if ok then (s, [.login])
  else
    let r := loginFailed s
    (r.1, .login :: r.2)

/-- Is a retry of `loginBot` scheduled among the effects? -/
def retryScheduled (es : List Effect) : Bool :=
  es.any fun e => match e with
    | .setTimeout _ => true
    | _ => false

/-- Does the process exit among the effects? -/
def exited (es : List Effect) : Bool :=
  es.any fun e => match e with
    | .exit _ => true
    | _ => false

/-- The login attempts of the process, one outcome of `client.login` per
attempt: the first call of `loginBot`, then one call each time the timer set by
the previous failure fires.  Nothing follows an exit or a successful login. -/
def loginLoop : List Bool → State → State × List Effect
  | [], s => (s, [])
  | ok :: rest, s =>
    let r := loginBot ok s
    if retryScheduled r.2 then
      let r2 := loginLoop rest r.1
      (r2.1, r.2 ++ r2.2)
    else r

/-! ## CORS policy -/

/-- The constant `allowedOrigins`. -/
def allowedOrigins : List String :=
  ["https://www.splift.mx", "https://c984a7-7.myshopify.com"]

/-- The expression `allowedOrigins.includes(origin)`; `none` is `undefined`. -/
def includesOrigin (origin : Option String) : Bool :=
  match origin with
  | none => false
  | some o => allowedOrigins.contains o

/-- The expression `!origin`: true for `undefined` and for the empty string. -/
def originFalsy (origin : Option String) : Bool :=
  match origin with
  | none => true
  | some o => o == ""

/-- The function `corsOptions.origin`: `callback(null, true)` is `ok true`,
`callback(new Error(...))` is `error` with the message. -/
def corsOrigin (origin : Option String) : Except String Bool :=
  if includesOrigin origin || originFalsy origin then .ok true
  else .error "Not allowed petition"

/-! ## Order lookup -/

/-- The variables `orderInfo` and `estadoActual` of the lookup handler. -/
structure Scan where
  orderInfo : Option Message
  estadoActual : Option String
  deriving DecidableEq, Repr

/-- The expression
`msg.embeds.length > 0 && msg.embeds[0].description.match(/Estado Actual:.../)`:
`ok none` when falsy, `ok (some s)` for a match with capture `s`, and `error`
for the `TypeError` thrown by `.match` on a missing description. -/
def matchEstado (msg : Message) : Except String (Option String) :=
  match msg.embeds with
  | [] => .ok none
  | e :: _ =>
    match e.description with
    | none => .error "TypeError: Cannot read properties of null (reading 'match')"
    | some d => .ok (reEstadoActual.capture d)

/-- The body of the `messages.forEach` callback. -/
def scanStep (shopifyOrder : String) (acc : Scan) (msg : Message) : Except String Scan :=
  let matchOrder := reShopifyOrder.capture msg.content
  match matchEstado msg with
  | .error e => .error e
  | .ok estado =>
    if matchOrder = some shopifyOrder then
      match estado with
      | some st => .ok ⟨some msg, some st⟩
      | none => .ok ⟨some msg, acc.estadoActual⟩
    else .ok acc

/-- The loop `messages.forEach(...)` from a given value of the two variables. -/
def scanFrom (shopifyOrder : String) : Scan → List Message → Except String Scan
  | acc, [] => .ok acc
  | acc, msg :: rest =>
    match scanStep shopifyOrder acc msg with
    | .error e => .error e
    | .ok acc1 => scanFrom shopifyOrder acc1 rest

/-- The loop started with `orderInfo = null` and `estadoActual = null`. -/
def scanMessages (shopifyOrder : String) (messages : List Message) : Except String Scan :=
  scanFrom shopifyOrder ⟨none, none⟩ messages

/-- The JSON value of `estadoActual`. -/
def estadoJson : Option String → JVal
  | none => .null
  | some s => .str s

/-- The expression `m ? m[1] : 'N/A'` for a match result `m`. -/
def orNA : Option String → String
  | some s => s
  | none => "N/A"

/-- The response built after the loop, lines 134 to 150 of the source. -/
def respondScan (shopifyOrder : String) (sc : Scan) : Response :=
  match sc.orderInfo with
  | some orderInfo =>
    if sc.estadoActual = some "CANCELLED_BY_BUSINESS" then
      ⟨200, .json [("error", .str "CANCELLED_BY_BUSINESS")]⟩
    else
      let smrUrl := reSmrUrl.capture orderInfo.content
      let customerTel := reCustomerTel.capture orderInfo.content
      ⟨200, .json [("shopifyOrder", .str shopifyOrder),
                   ("smrUrl", .str (orNA smrUrl)),
                   ("estadoPedido", estadoJson sc.estadoActual),
                   ("customerTel", .str (orNA customerTel))]⟩
  | none => ⟨404, .json [("error", .str "Order not found")]⟩

/-- A channel of the messaging platform: its messages in the order the platform
returns them, or the error with which fetching them rejects. -/
structure Channel where
  messages : Except String (List Message)

/-- The platform as seen by one request: the result of
`client.channels.fetch(channelId)`. -/
structure Env where
  channel : Except String Channel

/-- The call `channel.messages.fetch({ limit })`: at most `limit` messages. -/
def fetchMessages (ch : Channel) (limit : Nat) : Except String (List Message) :=
  match ch.messages with
  | .ok ms => .ok (ms.take limit)
  | .error e => .error e

/-- The response of the `catch` block of the lookup handler. -/
def internalError : Response :=
  ⟨500, .json [("error", .str "Internal server error")]⟩

/-- The handler of `GET /order/:shopifyOrder`. -/
def orderHandler (env : Env) (shopifyOrder : String) : Response × List Effect :=
  match env.channel with
  | .error _ => (internalError, [.fetchChannel, .log "Error while fetching order:"])
  | .ok channel =>
    match fetchMessages channel 3 with
    | .error _ =>
      (internalError, [.fetchChannel, .fetchMessages 3, .log "Error while fetching order:"])
    | .ok messages =>
      match scanMessages shopifyOrder messages with
      | .error _ =>
        (internalError, [.fetchChannel, .fetchMessages 3, .log "Error while fetching order:"])
      | .ok sc => (respondScan shopifyOrder sc, [.fetchChannel, .fetchMessages 3])

/-! ## The middleware chain -/

/-- HTTP request methods. -/
inductive Method
  | GET | HEAD | POST | PUT | PATCH | DELETE | OPTIONS
  deriving DecidableEq, Repr

/-- The path of a request as the router resolves it against the route patterns
of the source: `/`, `/favicon.ico`, `/ping`, `/order/:shopifyOrder` with the
value of the parameter, or a path that matches none of them. -/
inductive Path
  | root
  | favicon
  | ping
  | order (shopifyOrder : String)
  | other
  deriving DecidableEq, Repr

/-- The body of a request as `express.json()` treats it: nothing to parse, a
body it parses, or a body it rejects (malformed JSON and the like) with the
error it passes on. -/
inductive ReqBody
  | none
  | parsed
  | rejected (err : String)
  deriving DecidableEq, Repr

/-- A request: method, path, the `Origin` header (`none` when absent), and the
body. -/
structure Request where
  method : Method
  path : Path
  origin : Option String
  body : ReqBody
  deriving DecidableEq, Repr

/-- The layers registered on `app`, named after what they do. -/
inductive Layer
  | json        -- app.use(express.json())
  | cors        -- app.use(cors(corsOptions))
  | logHeaders  -- app.use(...) logging the headers
  | readiness   -- app.use(...) checking botReady
  | favicon     -- app.get('/favicon.ico', ...)
  | root        -- app.get('/', ...)
  | ping        -- app.get('/ping', ...)
  | order       -- app.get('/order/:shopifyOrder', ...)
  | notFound    -- app.use(...) for unknown routes
  deriving DecidableEq, Repr

/-- The layers in the order in which the source registers them. -/
def app : List Layer :=
  [.json, .cors, .logHeaders, .readiness, .favicon, .root, .ping, .order, .notFound]

/-- The route handlers among the layers. -/
def Layer.isRoute : Layer → Bool
  | .favicon | .root | .ping | .order => true
  | _ => false

/-- The methods served by a route registered with `app.get`: GET, and HEAD
for which the router falls back on the GET handler. -/
def Method.isGet : Method → Bool
  | .GET | .HEAD => true
  | _ => false

/-- Does the layer apply to the request?  A layer registered with `app.use`
applies to every request, one registered with `app.get` to the GET requests of
its path. -/
def Layer.applies (l : Layer) (req : Request) : Bool :=
  match l with
  | .json | .cors | .logHeaders | .readiness | .notFound => true
  | .favicon => req.method.isGet && req.path == .favicon
  | .root => req.method.isGet && req.path == .root
  | .ping => req.method.isGet && req.path == .ping
  | .order =>
    req.method.isGet &&
    match req.path with
    | .order _ => true
    | _ => false

/-- What a layer does with a request: pass it on (`next()`), answer it, or pass
an error on (`next(err)`). -/
inductive Outcome
  | next
  | respond (r : Response)
  | fail (err : String)
  deriving DecidableEq, Repr

/-- The response of the readiness middleware when the bot is not ready. -/
def notReady : Response :=
  ⟨503, .json [("error", .str "Bot is not ready")]⟩

/-- The middleware `cors(corsOptions)`: the origin callback of the source
decides; an error is passed on with `next(err)`; an accepted preflight
(OPTIONS) request is answered with `optionsSuccessStatus` and no body, any other
accepted request is passed on. -/
def corsLayer (req : Request) : Outcome :=
  match corsOrigin req.origin with
  | .error e => .fail e
  | .ok _ =>
    if req.method = .OPTIONS then .respond ⟨200, .empty⟩ else .next

/-- The handler of `GET /ping`. -/
def pingHandler (s : State) : Response × List Effect :=
  if !s.botReady then
    (⟨200, .text "Pong"⟩,
      [.log "Ping received", .log "Bot not ready, attempting to login again", .login])
  else (⟨200, .text "Pong"⟩, [.log "Ping received"])

/-- The function of each layer. -/
def Layer.handle (l : Layer) (s : State) (env : Env) (req : Request) :
    Outcome × List Effect :=
  match l with
  | .json =>
    match req.body with
    | .rejected err => (.fail err, [])
    | _ => (.next, [])
  | .cors => (corsLayer req, [])
  | .logHeaders => (.next, [.log "Headers recibidos:"])
  | .readiness =>
    if !s.botReady then (.respond notReady, [.log "Bot is not ready."])
    else (.next, [])
  | .favicon => (.respond ⟨204, .empty⟩, [])
  | .root => (.respond ⟨200, .text "Servidor funcionando"⟩, [])
  | .ping => (.respond (pingHandler s).1, (pingHandler s).2)
  | .order =>
    match req.path with
    | .order shopifyOrder =>
      (.respond (orderHandler env shopifyOrder).1, (orderHandler env shopifyOrder).2)
    | _ => (.next, [])
  | .notFound => (.respond ⟨404, .text "Ruta no encontrada"⟩, [])

/-- The response as it is sent: `res.send` and `res.json` leave out the body of
the response to a HEAD request. -/
def sendFor (m : Method) (r : Response) : Response :=
  match m with
  | .HEAD => ⟨r.status, .empty⟩
  | _ => r

/-- How the handling of a request ends: with a response, with an error handed
to the error handler of the framework (which answers with the status the error
carries, 400 for a rejected body, and 500 otherwise), or with no layer left. -/
inductive Result
  | response (r : Response)
  | error (err : String)
  | unhandled
  deriving DecidableEq, Repr

/-- The handling of one request: how it ended, the effects in order, and the
layers that ran. -/
structure Run where
  result : Result
  effects : List Effect
  ran : List Layer
  deriving DecidableEq, Repr

/-- Pass a request through the layers in order: a layer that applies runs; when
it calls `next()` the following layers are tried, otherwise handling ends. -/
def dispatch (s : State) (env : Env) (req : Request) : List Layer → Run
  | [] => ⟨.unhandled, [], []⟩
  | l :: ls =>
    if l.applies req then
      match l.handle s env req with
      | (.next, es) =>
        let r := dispatch s env req ls
        ⟨r.result, es ++ r.effects, l :: r.ran⟩
      | (.respond resp, es) => ⟨.response (sendFor req.method resp), es, [l]⟩
      | (.fail err, es) => ⟨.error err, es, [l]⟩
    else dispatch s env req ls

/-- The application handling a request. -/
def handleRequest (s : State) (env : Env) (req : Request) : Run :=
  dispatch s env req app

/-- The environment in which fetching the channel and its messages succeeds
with the given messages. -/
def Env.ofMessages (ms : List Message) : Env :=
  ⟨.ok ⟨.ok ms⟩⟩

/-! ## Vocabulary of the statements -/

/-- The policy as the specification words it: accepted exactly when the header
is absent or is one of the allow-listed origins. -/
def specAccepts (origin : Option String) : Bool :=
  match origin with
  | none => true
  | some o => o == "https://www.splift.mx" || o == "https://c984a7-7.myshopify.com"

/-- The state after `n` consecutive failed login attempts from start-up. -/
def afterFailures (n : Nat) : State :=
  (loginLoop (List.replicate n false) State.init).1

/-- The timers set among the effects. -/
def timeouts (es : List Effect) : List Effect :=
  es.filter fun e => match e with
    | .setTimeout _ => true
    | _ => false

/-- The exits among the effects. -/
def exits (es : List Effect) : List Effect :=
  es.filter fun e => match e with
    | .exit _ => true
    | _ => false

/-- Does reading the status of the message throw?  It does when the first embed
has no description. -/
def throws (msg : Message) : Bool :=
  match msg.embeds with
  | [] => false
  | e :: _ => e.description.isNone

/-- Does the marker of the message carry the order id? -/
def isMatch (shopifyOrder : String) (msg : Message) : Bool :=
  decide (reShopifyOrder.capture msg.content = some shopifyOrder)

/-- The field of a JSON response with the given name. -/
def Response.field (r : Response) (name : String) : Option JVal :=
  match r.body with
  | .json fields => (fields.find? fun f => f.1 == name).map Prod.snd
  | _ => none

/-- The candidate as the specification words it: the first message in fetch
order whose marker carries the order id. -/
def firstMatch (shopifyOrder : String) (messages : List Message) : Option Message :=
  messages.find? (isMatch shopifyOrder)

/-- The code points of the characters that `\s` stands for. -/
def whiteSpaceCodes : List Nat :=
  [0x09, 0x0A, 0x0B, 0x0C, 0x0D, 0x20, 0xA0, 0x1680, 0x2000, 0x2001, 0x2002, 0x2003,
   0x2004, 0x2005, 0x2006, 0x2007, 0x2008, 0x2009, 0x200A, 0x2028, 0x2029, 0x202F,
   0x205F, 0x3000, 0xFEFF]

/-- The characters of a value of `SMR URL:`: ASCII letters, digits and `_`. -/
def smrChar (c : Char) : Bool :=
  c.isAlphanum || c == '_'

/-- The characters of a value of `Customer_Tel:`: `+` and digits. -/
def telChar (c : Char) : Bool :=
  c == '+' || c.isDigit

/-- An occurrence of a labelled value in a text, right after the characters
`pre`: the label in any letter case, then white space (possibly none), then the
value, a non-empty run of value characters that no value character follows. -/
def OccursAt (label : String) (valueChar : Char → Bool) (text pre value : List Char) :
    Prop :=
  ∃ l ws rest, text = pre ++ l ++ ws ++ value ++ rest ∧
    l.map Char.toLower = label.data.map Char.toLower ∧
    (∀ c ∈ ws, c.toNat ∈ whiteSpaceCodes) ∧
    value ≠ [] ∧ (∀ c ∈ value, valueChar c = true) ∧
    (∀ r ∈ rest.head?, valueChar r = false)

/-- The value of the leftmost occurrence of a labelled value in a text. -/
def LeftmostValue (label : String) (valueChar : Char → Bool) (text value : List Char) :
    Prop :=
  ∃ pre, OccursAt label valueChar text pre value ∧
    ∀ pre1 value1, OccursAt label valueChar text pre1 value1 → pre.length ≤ pre1.length

/-- The text holds no occurrence of the labelled value. -/
def NoOccurrence (label : String) (valueChar : Char → Bool) (text : List Char) : Prop :=
  ∀ pre value, ¬ OccursAt label valueChar text pre value

/-- An occurrence of a marker in a text, right after the characters `pre`: the
label as it is written, then white space (possibly none), then the value, a
non-empty run of value characters that no value character follows. -/
def MarkerAt (label : String) (valueChar : Char → Bool) (text pre value : List Char) :
    Prop :=
  ∃ ws rest, text = pre ++ label.data ++ ws ++ value ++ rest ∧
    (∀ c ∈ ws, c.toNat ∈ whiteSpaceCodes) ∧
    value ≠ [] ∧ (∀ c ∈ value, valueChar c = true) ∧
    (∀ r ∈ rest.head?, valueChar r = false)

/-- The value of the leftmost occurrence of a marker in a text. -/
def LeftmostMarker (label : String) (valueChar : Char → Bool) (text value : List Char) :
    Prop :=
  ∃ pre, MarkerAt label valueChar text pre value ∧
    ∀ pre1 value1, MarkerAt label valueChar text pre1 value1 → pre.length ≤ pre1.length

/-! ## The readiness gate and `/ping` -/

/-- C1: a `GET /ping` request without `Origin` header, handled while `botReady`
is false, is answered by the readiness middleware with 503 and
`{error: "Bot is not ready"}`; the `/ping` handler does not run and no login
attempt is made. -/
theorem ping_blocked_when_not_ready (n : Nat) (env : Env) :
    handleRequest ⟨false, n⟩ env ⟨.GET, .ping, none, .none⟩ =
      ⟨.response ⟨503, .json [("error", .str "Bot is not ready")]⟩,
       [.log "Headers recibidos:", .log "Bot is not ready."],
       [.json, .cors, .logHeaders, .readiness]⟩ ∧
    Effect.login ∉ (handleRequest ⟨false, n⟩ env ⟨.GET, .ping, none, .none⟩).effects ∧
    (pingHandler ⟨false, n⟩).1 = ⟨200, .text "Pong"⟩ ∧
    Effect.login ∈ (pingHandler ⟨false, n⟩).2 := by
  simp [handleRequest, app, dispatch, Layer.applies, Layer.handle, corsLayer, corsOrigin,
    includesOrigin, originFalsy, notReady, pingHandler, sendFor]

/-- While the bot is ready, `GET /ping` with an accepted origin is answered
with 200 and `Pong`, and no login attempt is made. -/
theorem ping_when_ready (n : Nat) (env : Env) (origin : Option String)
    (h : corsOrigin origin = .ok true) :
    (handleRequest ⟨true, n⟩ env ⟨.GET, .ping, origin, .none⟩).result =
      .response ⟨200, .text "Pong"⟩ ∧
    Effect.login ∉ (handleRequest ⟨true, n⟩ env ⟨.GET, .ping, origin, .none⟩).effects := by
  simp [handleRequest, app, dispatch, Layer.applies, Layer.handle, corsLayer, h,
    Method.isGet, pingHandler, sendFor]

/-- C2, as stated, fails: while `botReady` is false a GET request for an order
from an origin that is not allowed ends in the CORS error, and an OPTIONS
request from an allowed origin is answered with 200; neither is answered with
503 and `{error: "Bot is not ready"}`. -/
theorem not_ready_without_503 :
    (handleRequest ⟨false, 0⟩ (Env.ofMessages [])
        ⟨.GET, .order "1042", some "https://evil.example", .none⟩).result =
      .error "Not allowed petition" ∧
    (handleRequest ⟨false, 0⟩ (Env.ofMessages [])
        ⟨.OPTIONS, .order "1042", some "https://www.splift.mx", .none⟩).result =
      .response ⟨200, .empty⟩ := by
  decide

/-- C2, amended: while `botReady` is false, every request that reaches the
readiness middleware (its body is not rejected by `express.json()`, its origin
is accepted by the CORS callback, and it is not an OPTIONS request) is answered
with status 503 and `{error: "Bot is not ready"}`, a HEAD request with status 503
and no body; a request with a rejected body or a rejected origin ends in that
error, and an accepted OPTIONS request is answered with 200; whatever the
request, no route handler runs and nothing is fetched; and the lookup handler
runs only when `botReady` is true. -/
theorem readiness_gate (s : State) (env : Env) (req : Request) :
    (s.botReady = false →
      ((∀ err, req.body ≠ .rejected err) → corsOrigin req.origin = .ok true →
        req.method ≠ .OPTIONS →
        ((handleRequest s env req).result =
            .response (sendFor req.method
              ⟨503, .json [("error", .str "Bot is not ready")]⟩)) ∧
        (req.method ≠ .HEAD →
          (handleRequest s env req).result =
            .response ⟨503, .json [("error", .str "Bot is not ready")]⟩) ∧
        (req.method = .HEAD →
          (handleRequest s env req).result = .response ⟨503, .empty⟩)) ∧
      (∀ err, req.body = .rejected err → (handleRequest s env req).result = .error err) ∧
      (∀ err, (∀ e, req.body ≠ .rejected e) → corsOrigin req.origin = .error err →
        (handleRequest s env req).result = .error err) ∧
      ((∀ e, req.body ≠ .rejected e) → corsOrigin req.origin = .ok true →
        req.method = .OPTIONS →
        (handleRequest s env req).result = .response ⟨200, .empty⟩) ∧
      (∀ l ∈ (handleRequest s env req).ran, l.isRoute = false) ∧
      Effect.fetchChannel ∉ (handleRequest s env req).effects ∧
      (∀ k, Effect.fetchMessages k ∉ (handleRequest s env req).effects)) ∧
    (Layer.order ∈ (handleRequest s env req).ran → s.botReady = true) := by
  obtain ⟨method, path, origin, body⟩ := req
  cases hb : s.botReady
  · simp only [handleRequest, app, dispatch, Layer.applies, Layer.handle, hb, corsLayer]
    cases body <;> cases hc : corsOrigin origin <;> cases method <;>
      simp [notReady, Layer.isRoute, sendFor]
  · simp

/-- Witness of the amended C2: an order request without `Origin` header while
not ready. -/
theorem readiness_gate_witness :
    (handleRequest ⟨false, 0⟩ (Env.ofMessages [])
        ⟨.GET, .order "1042", none, .none⟩).result =
      .response ⟨503, .json [("error", .str "Bot is not ready")]⟩ :=
  (((readiness_gate ⟨false, 0⟩ (Env.ofMessages [])
      ⟨.GET, .order "1042", none, .none⟩).1 rfl).1
    (fun _ h => by cases h) (by decide) (by decide)).2.1 (by decide)

/-! ## CORS -/

/-- C8, as stated, fails: an `Origin` header that is present with the empty
string as value is not on the allow-list, yet the callback accepts it. -/
theorem cors_empty_origin_accepted :
    corsOrigin (some "") = .ok true ∧ specAccepts (some "") = false ∧
    "" ∉ allowedOrigins ∧ (some "" : Option String) ≠ none := by
  decide

/-- C8, amended: the callback accepts exactly when the `Origin` header is
absent, is the empty string, or is one of the two allow-listed origins, and
rejects every other value with the error `Not allowed petition`; the origin
`https://www.splift.mx` is accepted, `https://evil.example` is rejected, and a
request without the header is accepted. -/
theorem cors_policy (origin : Option String) :
    (corsOrigin origin = .ok true ↔
      (origin = none ∨ origin = some "" ∨ origin = some "https://www.splift.mx" ∨
        origin = some "https://c984a7-7.myshopify.com")) ∧
    (corsOrigin origin ≠ .ok true → corsOrigin origin = .error "Not allowed petition") ∧
    corsOrigin (some "https://www.splift.mx") = .ok true ∧
    corsOrigin (some "https://evil.example") = .error "Not allowed petition" ∧
    corsOrigin none = .ok true := by
  refine ⟨?_, ?_, by decide, by decide, by decide⟩
  · cases origin with
    | none => simp [corsOrigin, includesOrigin, originFalsy]
    | some o =>
      by_cases h : includesOrigin (some o) || originFalsy (some o)
      · simp only [corsOrigin, h, if_true, true_iff]
        simp [includesOrigin, originFalsy, allowedOrigins] at h
        simp only [Option.some.injEq]
        tauto
      · simp only [corsOrigin, h]
        simp [includesOrigin, originFalsy, allowedOrigins] at h
        simp only [Option.some.injEq]
        simp
        tauto
  · intro h
    unfold corsOrigin at h ⊢
    split at h
    · exact absurd rfl h
    · rename_i hc
      simp [hc]

/-- Witness of the amended C8: the origin `https://evil.example` is rejected
with the error. -/
theorem cors_policy_witness :
    corsOrigin (some "https://evil.example") = .error "Not allowed petition" :=
  (cors_policy (some "https://evil.example")).2.1 (by decide)

/-! ## The worked example -/

/-- C9: with the bot ready and one fetched message with the body and the embed
of the example, `GET /order/1042` is answered with 200 and the order record of
the example. -/
theorem worked_example :
    (handleRequest ⟨true, 0⟩
        (Env.ofMessages
          [⟨"Shopify_order: 1042\nSMR URL: AB12CD\nCustomer_Tel: +5215512345678",
            [⟨some "Estado Actual: IN_TRANSIT"⟩]⟩])
        ⟨.GET, .order "1042", none, .none⟩).result =
      .response ⟨200, .json [("shopifyOrder", .str "1042"), ("smrUrl", .str "AB12CD"),
        ("estadoPedido", .str "IN_TRANSIT"), ("customerTel", .str "+5215512345678")]⟩ := by
  decide

/-! ## Authentication retry -/

/-- From five failures on, the attempts stop at the fifth. -/
theorem loginLoop_five_failures (k : Nat) :
    loginLoop (List.replicate (5 + k) false) State.init =
      loginLoop (List.replicate 5 false) State.init := by
  have h : List.replicate (5 + k) false =
      false :: false :: false :: false :: false :: List.replicate k false := by
    rw [Nat.add_comm]; rfl
  rw [h]
  rfl

/-- C7: from `reconnectAttempts = 0` with every login attempt failing, the
`n`-th failure (`1 ≤ n ≤ 5`) schedules exactly one retry after 5000 ms and no
exit when `n < 5`, and exits with code 1 without scheduling a retry when
`n = 5`; a retry is scheduled iff `n < 5` and the process exits iff `n = 5`.
Whatever the number of failing outcomes offered, at most five attempts are made,
and with five or more the run ends in `exit(1)` after four retries. -/
theorem login_retry (n : Nat) (h1 : 1 ≤ n) (h5 : n ≤ 5) :
    (n < 5 →
      timeouts (loginBot false (afterFailures (n - 1))).2 = [.setTimeout 5000] ∧
      exits (loginBot false (afterFailures (n - 1))).2 = []) ∧
    (n = 5 →
      timeouts (loginBot false (afterFailures (n - 1))).2 = [] ∧
      exits (loginBot false (afterFailures (n - 1))).2 = [.exit 1]) ∧
    (retryScheduled (loginBot false (afterFailures (n - 1))).2 = true ↔ n < 5) ∧
    (exited (loginBot false (afterFailures (n - 1))).2 = true ↔ n = 5) ∧
    (afterFailures n).reconnectAttempts = n ∧
    (∀ k, (loginLoop (List.replicate (5 + k) false) State.init).2 =
      [.login, .log "Failed to login:", .setTimeout 5000,
       .login, .log "Failed to login:", .setTimeout 5000,
       .login, .log "Failed to login:", .setTimeout 5000,
       .login, .log "Failed to login:", .setTimeout 5000,
       .login, .log "Failed to login:", .exit 1]) := by
  have hk : ∀ k, (loginLoop (List.replicate (5 + k) false) State.init).2 =
      [.login, .log "Failed to login:", .setTimeout 5000,
       .login, .log "Failed to login:", .setTimeout 5000,
       .login, .log "Failed to login:", .setTimeout 5000,
       .login, .log "Failed to login:", .setTimeout 5000,
       .login, .log "Failed to login:", .exit 1] := by
    intro k
    rw [loginLoop_five_failures]
    decide
  interval_cases n <;> exact ⟨by decide, by decide, by decide, by decide, by decide, hk⟩

/-- Witness of C7: the fifth failure. -/
theorem login_retry_witness :
    exits (loginBot false (afterFailures 4)).2 = [.exit 1] ∧
    timeouts (loginBot false (afterFailures 4)).2 = [] :=
  ⟨((login_retry 5 (by decide) (by decide)).2.1 rfl).2,
   ((login_retry 5 (by decide) (by decide)).2.1 rfl).1⟩

/-! ## Properties of the matcher -/

/-- A successful greedy iteration hands the continuation characters of the
class only. -/
theorem greedy_some (test : Char → Bool) (k : List Char → List Char → Option (List Char)) :
    ∀ (xs taken cap : List Char), greedy test k taken xs = some cap →
      (∀ c ∈ taken, test c = true) →
      ∃ t r, (∀ c ∈ t, test c = true) ∧ k t r = some cap := by
  intro xs
  induction xs with
  | nil =>
    intro taken cap h ht
    exact ⟨taken, [], ht, h⟩
  | cons x xs ih =>
    intro taken cap h ht
    unfold greedy at h
    by_cases hx : test x = true
    · rw [if_pos hx] at h
      cases hg : greedy test k (taken ++ [x]) xs with
      | some cap1 =>
        rw [hg] at h
        have ht1 : ∀ c ∈ taken ++ [x], test c = true := by
          intro c hc
          rcases List.mem_append.mp hc with hc | hc
          · exact ht c hc
          · rw [List.mem_singleton.mp hc]; exact hx
        obtain ⟨t, r, h1, h2⟩ := ih (taken ++ [x]) cap1 hg ht1
        exact ⟨t, r, h1, by rw [h2]; exact h⟩
      | none =>
        rw [hg] at h
        exact ⟨taken, x :: xs, ht, h⟩
    · rw [if_neg hx] at h
      exact ⟨taken, x :: xs, ht, h⟩

/-- The captured text consists of characters of the class of a group. -/
theorem matchHere_capture (ic : Bool) (P : Char → Prop) :
    ∀ (ns : List Node),
      (∀ cls, Node.group cls ∈ ns → ∀ c, classTest ic cls c = true → P c) →
      ∀ (xs cap : List Char), matchHere ic ns xs = some cap → ∀ c ∈ cap, P c := by
  intro ns
  induction ns with
  | nil =>
    intro _ xs cap h c hc
    simp [matchHere] at h
    subst h
    simp at hc
  | cons nd ns ih =>
    intro hP xs cap h c hc
    have hP1 : ∀ cls, Node.group cls ∈ ns → ∀ c, classTest ic cls c = true → P c :=
      fun cls hm => hP cls (List.mem_cons_of_mem _ hm)
    cases nd with
    | lit ch =>
      cases xs with
      | nil => simp [matchHere] at h
      | cons x rest =>
        simp only [matchHere] at h
        split at h
        · exact ih hP1 rest cap h c hc
        · exact absurd h (by simp)
    | star cls =>
      simp only [matchHere] at h
      obtain ⟨t, r, _, h2⟩ := greedy_some _ _ xs [] cap h (by simp)
      exact ih hP1 r cap h2 c hc
    | group cls =>
      simp only [matchHere] at h
      obtain ⟨t, r, h1, h2⟩ := greedy_some _ _ xs [] cap h (by simp)
      split at h2
      · exact absurd h2 (by simp)
      · cases hm : matchHere ic ns r with
        | none => simp [hm] at h2
        | some cap1 =>
          simp [hm] at h2
          subst h2
          exact hP cls (List.mem_cons_self _ _) c (h1 c hc)

/-- The text captured by the leftmost match consists of characters of the
class of a group. -/
theorem searchFrom_capture (re : Regex) (P : Char → Prop)
    (hP : ∀ cls, Node.group cls ∈ re.nodes → ∀ c, classTest re.ignoreCase cls c = true → P c) :
    ∀ (xs cap : List Char), searchFrom re xs = some cap → ∀ c ∈ cap, P c := by
  intro xs
  induction xs with
  | nil =>
    intro cap h
    exact matchHere_capture re.ignoreCase P re.nodes hP [] cap h
  | cons x xs ih =>
    intro cap h
    unfold searchFrom at h
    cases hm : matchHere re.ignoreCase re.nodes (x :: xs) with
    | some cap1 =>
      rw [hm] at h
      simp at h
      subst h
      exact matchHere_capture re.ignoreCase P re.nodes hP (x :: xs) cap1 hm
    | none =>
      rw [hm] at h
      exact ih cap h

/-- The code point of `Char.ofNat n` for a small `n`. -/
theorem toNat_ofNat_small (n : Nat) (h : n < 0xd800) : (Char.ofNat n).toNat = n := by
  unfold Char.ofNat
  rw [dif_pos (Or.inl h)]
  simp [Char.ofNatAux, Char.toNat, UInt32.toNat]

/-- Characters with the same code point are equal. -/
theorem char_eq_of_toNat_eq (a b : Char) (h : a.toNat = b.toNat) : a = b := by
  rw [← Char.ofNat_toNat a, ← Char.ofNat_toNat b, h]

/-- The code point of the upper-case form of a character. -/
theorem toUpper_toNat (c : Char) :
    c.toUpper.toNat = if 97 ≤ c.toNat ∧ c.toNat ≤ 122 then c.toNat - 32 else c.toNat := by
  unfold Char.toUpper
  simp only [ge_iff_le]
  split
  · rw [toNat_ofNat_small _ (by omega)]
  · rfl

/-- The code point of the lower-case form of a character. -/
theorem toLower_toNat (c : Char) :
    c.toLower.toNat = if 65 ≤ c.toNat ∧ c.toNat ≤ 90 then c.toNat + 32 else c.toNat := by
  unfold Char.toLower
  simp only [ge_iff_le]
  split
  · rw [toNat_ofNat_small _ (by omega)]
  · rfl

/-- Under the `i` flag a pattern character matches the characters that differ
from it in letter case at most. -/
theorem charMatches_ignoreCase (c x : Char) :
    charMatches true c x = true ↔ x.toLower = c.toLower := by
  simp only [charMatches, canonicalize, if_true, beq_iff_eq]
  constructor
  · intro h
    apply char_eq_of_toNat_eq
    have := congrArg Char.toNat h
    rw [toUpper_toNat, toUpper_toNat] at this
    rw [toLower_toNat, toLower_toNat]
    split_ifs at this ⊢ <;> omega
  · intro h
    apply char_eq_of_toNat_eq
    have := congrArg Char.toNat h
    rw [toLower_toNat, toLower_toNat] at this
    rw [toUpper_toNat, toUpper_toNat]
    split_ifs at this ⊢ <;> omega

/-- The class `\s` is the set of the white space code points. -/
theorem isJsSpace_iff (c : Char) : isJsSpace c = true ↔ c.toNat ∈ whiteSpaceCodes := by
  simp only [isJsSpace, whiteSpaceCodes, Bool.or_eq_true, Bool.and_eq_true, beq_iff_eq,
    decide_eq_true_eq, List.mem_cons, List.mem_singleton, List.not_mem_nil, or_false]
  omega

/-- The class `[\w\d]` is the set of the ASCII letters, the digits and `_`. -/
theorem classTest_smr (x : Char) : classTest true [.word, .digit] x = smrChar x := by
  have h1 : x.isAlphanum =
      ((decide (65 ≤ x.toNat) && decide (x.toNat ≤ 90)) ||
        (decide (97 ≤ x.toNat) && decide (x.toNat ≤ 122)) ||
        (decide (48 ≤ x.toNat) && decide (x.toNat ≤ 57))) := by
    simp only [Char.isAlphanum, Char.isAlpha, Char.isUpper, Char.isLower, Char.isDigit,
      Char.toNat, ge_iff_le, UInt32.le_def]
    rfl
  have h2 : (x == '_') = decide (x.toNat = 0x5F) := by
    by_cases h : x = '_'
    · subst h; rfl
    · have : x.toNat ≠ 0x5F := fun hn => h (char_eq_of_toNat_eq x '_' hn)
      simp [h, this]
  simp only [classTest, List.any_cons, List.any_nil, ClassAtom.test, isJsWord, isJsDigit,
    smrChar, h1, h2, Bool.or_false]
  cases h65 : decide (65 ≤ x.toNat) <;> cases h90 : decide (x.toNat ≤ 90) <;>
    cases h97 : decide (97 ≤ x.toNat) <;> cases h122 : decide (x.toNat ≤ 122) <;>
    cases h48 : decide (48 ≤ x.toNat) <;> cases h57 : decide (x.toNat ≤ 57) <;>
    cases h5f : decide (x.toNat = 0x5F) <;> simp_all

/-- The class `[\+\d]` under the `i` flag is the set of `+` and the digits. -/
theorem classTest_tel (x : Char) : classTest true [.char '+', .digit] x = telChar x := by
  have h1 : x.isDigit = (decide (48 ≤ x.toNat) && decide (x.toNat ≤ 57)) := by
    simp only [Char.isDigit, Char.toNat, ge_iff_le, UInt32.le_def]
    rfl
  have h2 : charMatches true '+' x = (x == '+') := by
    by_cases h : x = '+'
    · subst h; rfl
    · have hne : ¬ charMatches true '+' x = true := by
        rw [charMatches_ignoreCase]
        intro hl
        have := congrArg Char.toNat hl
        rw [toLower_toNat, toLower_toNat] at this
        have h43 : ('+' : Char).toNat = 43 := rfl
        rw [h43] at this
        apply h
        apply char_eq_of_toNat_eq
        rw [h43]
        split_ifs at this <;> omega
      simp [h, hne]
  simp only [classTest, List.any_cons, List.any_nil, ClassAtom.test, isJsDigit, telChar,
    h1, h2, Bool.or_false]

/-- The longest run of a list that is followed by no further member. -/
theorem takeWhile_run (p : Char → Bool) :
    ∀ (a b : List Char), (∀ c ∈ a, p c = true) → (∀ r ∈ b.head?, p r = false) →
      (a ++ b).takeWhile p = a := by
  intro a
  induction a with
  | nil =>
    intro b _ hb
    cases b with
    | nil => rfl
    | cons r b => simp [List.takeWhile, hb r (by simp)]
  | cons x a ih =>
    intro b ha hb
    have h := ih b (fun c hc => ha c (List.mem_cons_of_mem _ hc)) hb
    simp only [List.cons_append, List.takeWhile_cons, ha x (List.mem_cons_self _ _), if_true, h]

/-- What is left after the longest run of a list. -/
theorem dropWhile_run (p : Char → Bool) :
    ∀ (a b : List Char), (∀ c ∈ a, p c = true) → (∀ r ∈ b.head?, p r = false) →
      (a ++ b).dropWhile p = b := by
  intro a
  induction a with
  | nil =>
    intro b _ hb
    cases b with
    | nil => rfl
    | cons r b => simp [List.dropWhile, hb r (by simp)]
  | cons x a ih =>
    intro b ha hb
    have h := ih b (fun c hc => ha c (List.mem_cons_of_mem _ hc)) hb
    simp only [List.cons_append, List.dropWhile_cons, ha x (List.mem_cons_self _ _), if_true, h]

/-- No member of the class follows the longest run. -/
theorem head_dropWhile (p : Char → Bool) :
    ∀ (xs : List Char), ∀ r ∈ (xs.dropWhile p).head?, p r = false := by
  intro xs
  induction xs with
  | nil => intro r hr; simp at hr
  | cons x xs ih =>
    intro r hr
    by_cases hx : p x = true
    · simp only [List.dropWhile, hx] at hr
      exact ih r hr
    · simp only [List.dropWhile, hx] at hr
      simp at hr
      subst hr
      simpa using hx

/-- The group at the end of a pattern captures the longest run of its class. -/
theorem greedy_group_end (test : Char → Bool) :
    ∀ (xs taken : List Char),
      greedy test (fun t _ => if t.isEmpty then none else some t) taken xs =
        if (taken ++ xs.takeWhile test).isEmpty then none
        else some (taken ++ xs.takeWhile test) := by
  intro xs
  induction xs with
  | nil => intro taken; simp [greedy]
  | cons x xs ih =>
    intro taken
    by_cases hx : test x = true
    · simp only [greedy, hx, if_true, List.takeWhile]
      rw [ih (taken ++ [x])]
      simp
    · simp [greedy, hx, List.takeWhile]

/-- A pattern that is one group captures the longest run of the class at the
start of the input, which must not be empty. -/
theorem matchHere_group (ic : Bool) (cls : CharClass) (xs : List Char) :
    matchHere ic [.group cls] xs =
      if (xs.takeWhile (classTest ic cls)).isEmpty then none
      else some (xs.takeWhile (classTest ic cls)) := by
  have h := greedy_group_end (classTest ic cls) xs []
  simp only [List.nil_append] at h
  rw [← h]
  simp [matchHere]

/-- The iteration before a group of a disjoint class takes the longest run;
giving characters back never helps. -/
theorem greedy_star_group (ic : Bool) (sp cls : CharClass)
    (hd : ∀ x, classTest ic sp x = true → classTest ic cls x = false) :
    ∀ (xs taken : List Char),
      greedy (classTest ic sp) (fun _ rest => matchHere ic [.group cls] rest) taken xs =
        matchHere ic [.group cls] (xs.dropWhile (classTest ic sp)) := by
  intro xs
  induction xs with
  | nil => intro taken; simp [greedy]
  | cons x xs ih =>
    intro taken
    by_cases hx : classTest ic sp x = true
    · simp only [greedy, hx, if_true, List.dropWhile]
      rw [ih (taken ++ [x])]
      cases hm : matchHere ic [.group cls] (List.dropWhile (classTest ic sp) xs) with
      | some cap => rfl
      | none =>
        simp only
        rw [matchHere_group]
        simp [List.takeWhile, hd x hx]
    · simp [greedy, hx, List.dropWhile]

/-- The end of each pattern of the source, `\s*` and a group of a class
disjoint from `\s`: skip the white space, capture the longest run. -/
theorem matchHere_star_group (ic : Bool) (sp cls : CharClass)
    (hd : ∀ x, classTest ic sp x = true → classTest ic cls x = false) (xs : List Char) :
    matchHere ic [.star sp, .group cls] xs =
      if ((xs.dropWhile (classTest ic sp)).takeWhile (classTest ic cls)).isEmpty then none
      else some ((xs.dropWhile (classTest ic sp)).takeWhile (classTest ic cls)) := by
  rw [← matchHere_group]
  rw [← greedy_star_group ic sp cls hd xs []]
  simp [matchHere]

/-- The literal characters at the start of a pattern with the `i` flag match
the same characters in any letter case. -/
theorem matchHere_lits (tail : List Node) :
    ∀ (L xs cap : List Char),
      matchHere true (L.map Node.lit ++ tail) xs = some cap ↔
        ∃ l rest, xs = l ++ rest ∧ l.map Char.toLower = L.map Char.toLower ∧
          matchHere true tail rest = some cap := by
  intro L
  induction L with
  | nil =>
    intro xs cap
    constructor
    · intro h
      exact ⟨[], xs, rfl, rfl, h⟩
    · rintro ⟨l, rest, hxs, hl, h⟩
      have : l = [] := by simpa using hl
      subst this
      subst hxs
      exact h
  | cons c L ih =>
    intro xs cap
    cases xs with
    | nil =>
      constructor
      · intro h
        simp [matchHere] at h
      · rintro ⟨l, rest, hxs, hl, _⟩
        have hnil : l = [] := by
          cases l with
          | nil => rfl
          | cons a l => simp at hxs
        subst hnil
        simp at hl
    | cons x xs =>
      have hstep : matchHere true ((c :: L).map Node.lit ++ tail) (x :: xs) =
          if charMatches true c x then matchHere true (L.map Node.lit ++ tail) xs
          else none := rfl
      rw [hstep]
      simp only [List.map_cons]
      by_cases hx : charMatches true c x = true
      · rw [if_pos hx, ih xs cap]
        constructor
        · rintro ⟨l, rest, hxs, hl, h⟩
          refine ⟨x :: l, rest, by rw [hxs]; rfl, ?_, h⟩
          simp only [List.map_cons, hl, (charMatches_ignoreCase c x).mp hx]
        · rintro ⟨l, rest, hxs, hl, h⟩
          cases l with
          | nil => simp at hl
          | cons a l =>
            simp only [List.cons_append, List.cons.injEq] at hxs
            simp only [List.map_cons, List.cons.injEq] at hl
            exact ⟨l, rest, hxs.2, hl.2, h⟩
      · rw [if_neg hx]
        constructor
        · intro h
          cases h
        · rintro ⟨l, rest, hxs, hl, _⟩
          cases l with
          | nil => simp at hl
          | cons a l =>
            simp only [List.cons_append, List.cons.injEq] at hxs
            simp only [List.map_cons, List.cons.injEq] at hl
            exact absurd ((charMatches_ignoreCase c x).mpr (hxs.1 ▸ hl.1)) hx

/-- What the end of a pattern, `\s*` and a group of a class disjoint from `\s`,
matches: white space, then the captured run, which no character of the class
follows. -/
theorem matchHere_star_group_iff (ic : Bool) (sp cls : CharClass)
    (hd : ∀ x, classTest ic sp x = true → classTest ic cls x = false)
    (xs cap : List Char) :
    matchHere ic [.star sp, .group cls] xs = some cap ↔
      ∃ ws rest, xs = ws ++ cap ++ rest ∧ (∀ c ∈ ws, classTest ic sp c = true) ∧
        cap ≠ [] ∧ (∀ c ∈ cap, classTest ic cls c = true) ∧
        (∀ r ∈ rest.head?, classTest ic cls r = false) := by
  rw [matchHere_star_group ic sp cls hd]
  constructor
  · intro h
    split at h
    · cases h
    · rename_i hne
      simp only [Option.some.injEq] at h
      refine ⟨xs.takeWhile (classTest ic sp),
        (xs.dropWhile (classTest ic sp)).dropWhile (classTest ic cls), ?_, ?_, ?_, ?_, ?_⟩
      · rw [← h, List.append_assoc, List.takeWhile_append_dropWhile,
          List.takeWhile_append_dropWhile]
      · intro c hc
        exact List.mem_takeWhile_imp hc
      · rw [← h]
        intro hnil
        rw [hnil] at hne
        exact hne rfl
      · intro c hc
        rw [← h] at hc
        exact List.mem_takeWhile_imp hc
      · exact head_dropWhile _ _
  · rintro ⟨ws, rest, hxs, hws, hne, hcap, hrest⟩
    have hhead : ∀ r ∈ (cap ++ rest).head?, classTest ic sp r = false := by
      intro r hr
      cases cap with
      | nil => exact absurd rfl hne
      | cons a cap =>
        have hra : a = r := by simpa using hr
        rw [← hra]
        have ha := hcap a (List.mem_cons_self _ _)
        cases hs : classTest ic sp a with
        | false => rfl
        | true => rw [hd a hs] at ha; cases ha
    have h1 : xs.dropWhile (classTest ic sp) = cap ++ rest := by
      rw [hxs, List.append_assoc]
      exact dropWhile_run _ ws (cap ++ rest) hws hhead
    have h2 : (cap ++ rest).takeWhile (classTest ic cls) = cap :=
      takeWhile_run _ cap rest hcap hrest
    rw [h1, h2]
    cases cap with
    | nil => exact absurd rfl hne
    | cons a cap => rfl

/-- The leftmost match is a match at some position with no match before it. -/
theorem searchFrom_some_iff (re : Regex) :
    ∀ (xs cap : List Char),
      searchFrom re xs = some cap ↔
        ∃ pre suf, xs = pre ++ suf ∧ matchHere re.ignoreCase re.nodes suf = some cap ∧
          ∀ pre1 suf1, xs = pre1 ++ suf1 → pre1.length < pre.length →
            matchHere re.ignoreCase re.nodes suf1 = none := by
  intro xs
  induction xs with
  | nil =>
    intro cap
    simp only [searchFrom]
    constructor
    · intro h
      exact ⟨[], [], rfl, h, fun _ _ _ hlt => absurd hlt (by simp)⟩
    · rintro ⟨pre, suf, hxs, h, _⟩
      have hs : suf = [] := by
        cases pre with
        | nil => simpa using hxs.symm
        | cons a pre => simp at hxs
      rw [hs] at h
      exact h
  | cons x xs ih =>
    intro cap
    simp only [searchFrom]
    cases hm : matchHere re.ignoreCase re.nodes (x :: xs) with
    | some c =>
      simp only [Option.some.injEq]
      constructor
      · intro h
        subst h
        exact ⟨[], x :: xs, rfl, hm, fun _ _ _ hlt => absurd hlt (by simp)⟩
      · rintro ⟨pre, suf, hxs, h, hmin⟩
        cases pre with
        | nil =>
          simp only [List.nil_append] at hxs
          rw [← hxs, hm] at h
          simpa using h
        | cons a pre =>
          have := hmin [] (x :: xs) rfl (by simp)
          rw [hm] at this
          cases this
    | none =>
      simp only
      rw [ih cap]
      constructor
      · rintro ⟨pre, suf, hxs, h, hmin⟩
        refine ⟨x :: pre, suf, by rw [hxs]; rfl, h, ?_⟩
        intro pre1 suf1 h1 hlt
        cases pre1 with
        | nil =>
          simp only [List.nil_append] at h1
          rw [← h1]
          exact hm
        | cons a pre1 =>
          simp only [List.cons_append, List.cons.injEq] at h1
          exact hmin pre1 suf1 h1.2 (by simpa using hlt)
      · rintro ⟨pre, suf, hxs, h, hmin⟩
        cases pre with
        | nil =>
          simp only [List.nil_append] at hxs
          rw [← hxs, hm] at h
          cases h
        | cons a pre =>
          simp only [List.cons_append, List.cons.injEq] at hxs
          refine ⟨pre, suf, hxs.2, h, ?_⟩
          intro pre1 suf1 h1 hlt
          exact hmin (x :: pre1) suf1 (by rw [h1]; rfl) (by simpa using hlt)

/-- There is no match when there is none at any position. -/
theorem searchFrom_none_iff (re : Regex) :
    ∀ (xs : List Char),
      searchFrom re xs = none ↔
        ∀ pre suf, xs = pre ++ suf → matchHere re.ignoreCase re.nodes suf = none := by
  intro xs
  induction xs with
  | nil =>
    simp only [searchFrom]
    constructor
    · intro h pre suf hxs
      have hs : suf = [] := by
        cases pre with
        | nil => simpa using hxs.symm
        | cons a pre => simp at hxs
      rw [hs]
      exact h
    · intro h
      exact h [] [] rfl
  | cons x xs ih =>
    simp only [searchFrom]
    cases hm : matchHere re.ignoreCase re.nodes (x :: xs) with
    | some c =>
      constructor
      · intro h
        cases h
      · intro h
        have := h [] (x :: xs) rfl
        rw [hm] at this
        cases this
    | none =>
      simp only
      rw [ih]
      constructor
      · intro h pre suf hxs
        cases pre with
        | nil =>
          simp only [List.nil_append] at hxs
          rw [← hxs]
          exact hm
        | cons a pre =>
          simp only [List.cons_append, List.cons.injEq] at hxs
          exact h pre suf hxs.2
      · intro h pre suf hxs
        exact h (x :: pre) suf (by rw [hxs]; rfl)

/-- An occurrence of a labelled value after `pre` is a match of the pattern
`/label\s*(class+)/i` at that position. -/
theorem occursAt_iff (label : String) (cls : CharClass) (valueChar : Char → Bool)
    (hcls : ∀ x, classTest true cls x = valueChar x)
    (hd : ∀ x, isJsSpace x = true → valueChar x = false)
    (text pre value : List Char) :
    OccursAt label valueChar text pre value ↔
      ∃ suf, text = pre ++ suf ∧
        matchHere true (lits label ++ [.star [.space], .group cls]) suf = some value := by
  have hsp : ∀ x, classTest true [.space] x = isJsSpace x := by
    intro x
    simp [classTest, ClassAtom.test]
  have hd1 : ∀ x, classTest true [.space] x = true → classTest true cls x = false := by
    intro x hx
    rw [hcls]
    exact hd x (by rw [← hsp]; exact hx)
  constructor
  · rintro ⟨l, ws, rest, htext, hl, hws, hne, hval, hrest⟩
    refine ⟨l ++ (ws ++ value ++ rest), by rw [htext]; simp [List.append_assoc], ?_⟩
    unfold lits
    rw [matchHere_lits]
    refine ⟨l, ws ++ value ++ rest, rfl, hl, ?_⟩
    rw [matchHere_star_group_iff true [.space] cls hd1]
    refine ⟨ws, rest, rfl, ?_, hne, ?_, ?_⟩
    · intro c hc
      rw [hsp]
      exact (isJsSpace_iff c).mpr (hws c hc)
    · intro c hc
      rw [hcls]
      exact hval c hc
    · intro r hr
      rw [hcls]
      exact hrest r hr
  · rintro ⟨suf, htext, hm⟩
    unfold lits at hm
    rw [matchHere_lits] at hm
    obtain ⟨l, rest1, hsuf, hl, hm1⟩ := hm
    rw [matchHere_star_group_iff true [.space] cls hd1] at hm1
    obtain ⟨ws, rest, hrest1, hws, hne, hval, hrest⟩ := hm1
    refine ⟨l, ws, rest, by rw [htext, hsuf, hrest1]; simp [List.append_assoc], hl, ?_, hne,
      ?_, ?_⟩
    · intro c hc
      exact (isJsSpace_iff c).mp (by rw [← hsp]; exact hws c hc)
    · intro c hc
      rw [← hcls]
      exact hval c hc
    · intro r hr
      rw [← hcls]
      exact hrest r hr

/-- The capture of a pattern on a text is the capture of its leftmost match,
for any description `Occ` of the matches at a position. -/
theorem capture_leftmost (re : Regex) (body : String) (Occ : List Char → List Char → Prop)
    (hocc : ∀ pre value, Occ pre value ↔
      ∃ suf, body.data = pre ++ suf ∧
        matchHere re.ignoreCase re.nodes suf = some value)
    (value : String) :
    re.capture body = some value ↔
      ∃ pre, Occ pre value.data ∧
        ∀ pre1 value1, Occ pre1 value1 → pre.length ≤ pre1.length := by
  have hcap : re.capture body = some value ↔ searchFrom re body.data = some value.data := by
    unfold Regex.capture
    cases hs : searchFrom re body.data with
    | none => simp
    | some cap =>
      simp only [Option.map_some', Option.some.injEq]
      constructor
      · intro h
        rw [← h]
      · intro h
        rw [h]
  rw [hcap, searchFrom_some_iff]
  constructor
  · rintro ⟨pre, suf, htext, hm, hmin⟩
    refine ⟨pre, (hocc _ _).mpr ⟨suf, htext, hm⟩, ?_⟩
    intro pre1 value1 ho
    obtain ⟨suf1, htext1, hm1⟩ := (hocc _ _).mp ho
    by_contra hlt
    have := hmin pre1 suf1 htext1 (Nat.lt_of_not_le hlt)
    rw [hm1] at this
    cases this
  · rintro ⟨pre, ho, hmin⟩
    obtain ⟨suf, htext, hm⟩ := (hocc _ _).mp ho
    refine ⟨pre, suf, htext, hm, ?_⟩
    intro pre1 suf1 htext1 hlt
    cases hm1 : matchHere re.ignoreCase re.nodes suf1 with
    | none => rfl
    | some value1 =>
      have := hmin pre1 value1 ((hocc _ _).mpr ⟨suf1, htext1, hm1⟩)
      exact absurd hlt (Nat.not_lt.mpr this)

/-- A pattern has no match on a text exactly when it matches at no position. -/
theorem capture_no_match (re : Regex) (body : String) (Occ : List Char → List Char → Prop)
    (hocc : ∀ pre value, Occ pre value ↔
      ∃ suf, body.data = pre ++ suf ∧
        matchHere re.ignoreCase re.nodes suf = some value) :
    re.capture body = none ↔ ∀ pre value, ¬ Occ pre value := by
  have hcap : re.capture body = none ↔ searchFrom re body.data = none := by
    unfold Regex.capture
    cases hs : searchFrom re body.data <;> simp
  rw [hcap, searchFrom_none_iff]
  constructor
  · intro h pre value ho
    obtain ⟨suf, htext, hm⟩ := (hocc _ _).mp ho
    have := h pre suf htext
    rw [hm] at this
    cases this
  · intro h pre suf htext
    cases hm : matchHere re.ignoreCase re.nodes suf with
    | none => rfl
    | some value => exact absurd ((hocc _ _).mpr ⟨suf, htext, hm⟩) (h pre value)

/-- The capture of the pattern `/label\s*(class+)/i` on a text is the value of
the leftmost occurrence of the labelled value. -/
theorem capture_some_iff (label : String) (cls : CharClass) (valueChar : Char → Bool)
    (hcls : ∀ x, classTest true cls x = valueChar x)
    (hd : ∀ x, isJsSpace x = true → valueChar x = false)
    (body value : String) :
    Regex.capture ⟨lits label ++ [.star [.space], .group cls], true⟩ body = some value ↔
      LeftmostValue label valueChar body.data value.data :=
  capture_leftmost ⟨lits label ++ [.star [.space], .group cls], true⟩ body
    (OccursAt label valueChar body.data)
    (fun pre value => occursAt_iff label cls valueChar hcls hd body.data pre value) value

/-- The pattern `/label\s*(class+)/i` has no match on a text exactly when the
text holds no occurrence of the labelled value. -/
theorem capture_none_iff (label : String) (cls : CharClass) (valueChar : Char → Bool)
    (hcls : ∀ x, classTest true cls x = valueChar x)
    (hd : ∀ x, isJsSpace x = true → valueChar x = false)
    (body : String) :
    Regex.capture ⟨lits label ++ [.star [.space], .group cls], true⟩ body = none ↔
      NoOccurrence label valueChar body.data :=
  capture_no_match ⟨lits label ++ [.star [.space], .group cls], true⟩ body
    (OccursAt label valueChar body.data)
    (fun pre value => occursAt_iff label cls valueChar hcls hd body.data pre value)

/-- Without the `i` flag a pattern character matches itself only. -/
theorem charMatches_exact (c x : Char) : charMatches false c x = true ↔ x = c := by
  simp only [charMatches, canonicalize, Bool.false_eq_true, if_false, beq_iff_eq]
  exact eq_comm

/-- The literal characters at the start of a pattern without the `i` flag match
themselves. -/
theorem matchHere_lits_exact (tail : List Node) :
    ∀ (L xs cap : List Char),
      matchHere false (L.map Node.lit ++ tail) xs = some cap ↔
        ∃ rest, xs = L ++ rest ∧ matchHere false tail rest = some cap := by
  intro L
  induction L with
  | nil =>
    intro xs cap
    constructor
    · intro h
      exact ⟨xs, rfl, h⟩
    · rintro ⟨rest, hxs, h⟩
      rw [hxs]
      exact h
  | cons c L ih =>
    intro xs cap
    cases xs with
    | nil =>
      constructor
      · intro h
        simp [matchHere] at h
      · rintro ⟨rest, hxs, _⟩
        simp at hxs
    | cons x xs =>
      have hstep : matchHere false ((c :: L).map Node.lit ++ tail) (x :: xs) =
          if charMatches false c x then matchHere false (L.map Node.lit ++ tail) xs
          else none := rfl
      rw [hstep]
      by_cases hx : charMatches false c x = true
      · rw [if_pos hx, ih xs cap]
        have hxc := (charMatches_exact c x).mp hx
        constructor
        · rintro ⟨rest, hxs, h⟩
          exact ⟨rest, by rw [hxs, hxc]; rfl, h⟩
        · rintro ⟨rest, hxs, h⟩
          simp only [List.cons_append, List.cons.injEq] at hxs
          exact ⟨rest, hxs.2, h⟩
      · rw [if_neg hx]
        constructor
        · intro h
          cases h
        · rintro ⟨rest, hxs, _⟩
          simp only [List.cons_append, List.cons.injEq] at hxs
          exact absurd ((charMatches_exact c x).mpr hxs.1) hx

/-- An occurrence of a marker after `pre` is a match of the pattern
`/label\s*(class+)/` at that position. -/
theorem markerAt_iff (label : String) (cls : CharClass) (valueChar : Char → Bool)
    (hcls : ∀ x, classTest false cls x = valueChar x)
    (hd : ∀ x, isJsSpace x = true → valueChar x = false)
    (text pre value : List Char) :
    MarkerAt label valueChar text pre value ↔
      ∃ suf, text = pre ++ suf ∧
        matchHere false (lits label ++ [.star [.space], .group cls]) suf = some value := by
  have hsp : ∀ x, classTest false [.space] x = isJsSpace x := by
    intro x
    simp [classTest, ClassAtom.test]
  have hd1 : ∀ x, classTest false [.space] x = true → classTest false cls x = false := by
    intro x hx
    rw [hcls]
    exact hd x (by rw [← hsp]; exact hx)
  constructor
  · rintro ⟨ws, rest, htext, hws, hne, hval, hrest⟩
    refine ⟨label.data ++ (ws ++ value ++ rest), by rw [htext]; simp [List.append_assoc],
      ?_⟩
    unfold lits
    rw [matchHere_lits_exact]
    refine ⟨ws ++ value ++ rest, rfl, ?_⟩
    rw [matchHere_star_group_iff false [.space] cls hd1]
    refine ⟨ws, rest, rfl, ?_, hne, ?_, ?_⟩
    · intro c hc
      rw [hsp]
      exact (isJsSpace_iff c).mpr (hws c hc)
    · intro c hc
      rw [hcls]
      exact hval c hc
    · intro r hr
      rw [hcls]
      exact hrest r hr
  · rintro ⟨suf, htext, hm⟩
    unfold lits at hm
    rw [matchHere_lits_exact] at hm
    obtain ⟨rest1, hsuf, hm1⟩ := hm
    rw [matchHere_star_group_iff false [.space] cls hd1] at hm1
    obtain ⟨ws, rest, hrest1, hws, hne, hval, hrest⟩ := hm1
    refine ⟨ws, rest, by rw [htext, hsuf, hrest1]; simp [List.append_assoc], ?_, hne,
      ?_, ?_⟩
    · intro c hc
      exact (isJsSpace_iff c).mp (by rw [← hsp]; exact hws c hc)
    · intro c hc
      rw [← hcls]
      exact hval c hc
    · intro r hr
      rw [← hcls]
      exact hrest r hr

/-- The class `\d` is the set of the digits. -/
theorem classTest_digit (x : Char) : classTest false [.digit] x = x.isDigit := by
  have h1 : x.isDigit = (decide (48 ≤ x.toNat) && decide (x.toNat ≤ 57)) := by
    simp only [Char.isDigit, Char.toNat, ge_iff_le, UInt32.le_def]
    rfl
  simp only [classTest, List.any_cons, List.any_nil, ClassAtom.test, isJsDigit, h1,
    Bool.or_false]

/-- No white space character is a digit. -/
theorem space_not_digit (x : Char) (h : isJsSpace x = true) : x.isDigit = false := by
  rw [← classTest_digit]
  simp only [isJsSpace, Bool.or_eq_true, Bool.and_eq_true, beq_iff_eq,
    decide_eq_true_eq] at h
  simp only [classTest, List.any_cons, List.any_nil, ClassAtom.test, isJsDigit,
    Bool.or_false, Bool.and_eq_false_iff, decide_eq_false_iff_not]
  omega

/-- The capture of `/Shopify_order:\s*(\d+)/` is the value of the leftmost
occurrence of the marker `Shopify_order:`. -/
theorem shopifyOrder_capture_iff (body value : String) :
    reShopifyOrder.capture body = some value ↔
      LeftmostMarker "Shopify_order:" Char.isDigit body.data value.data :=
  capture_leftmost reShopifyOrder body (MarkerAt "Shopify_order:" Char.isDigit body.data)
    (fun pre value =>
      markerAt_iff "Shopify_order:" [.digit] Char.isDigit classTest_digit space_not_digit
        body.data pre value)
    value

/-- The class `[\w_]` is the set of the ASCII letters, the digits and `_`. -/
theorem classTest_estado (x : Char) : classTest false [.word, .char '_'] x = smrChar x := by
  have h1 : x.isAlphanum =
      ((decide (65 ≤ x.toNat) && decide (x.toNat ≤ 90)) ||
        (decide (97 ≤ x.toNat) && decide (x.toNat ≤ 122)) ||
        (decide (48 ≤ x.toNat) && decide (x.toNat ≤ 57))) := by
    simp only [Char.isAlphanum, Char.isAlpha, Char.isUpper, Char.isLower, Char.isDigit,
      Char.toNat, ge_iff_le, UInt32.le_def]
    rfl
  have h2 : (x == '_') = decide (x.toNat = 0x5F) := by
    by_cases h : x = '_'
    · subst h; rfl
    · have : x.toNat ≠ 0x5F := fun hn => h (char_eq_of_toNat_eq x '_' hn)
      simp [h, this]
  have h3 : charMatches false '_' x = (x == '_') := by
    by_cases h : x = '_'
    · subst h; rfl
    · have hne : ¬ charMatches false '_' x = true := fun hc =>
        h ((charMatches_exact '_' x).mp hc)
      simp [h, hne]
  simp only [classTest, List.any_cons, List.any_nil, ClassAtom.test, isJsWord, isJsDigit,
    smrChar, h1, h2, h3, Bool.or_false]
  cases h65 : decide (65 ≤ x.toNat) <;> cases h90 : decide (x.toNat ≤ 90) <;>
    cases h97 : decide (97 ≤ x.toNat) <;> cases h122 : decide (x.toNat ≤ 122) <;>
    cases h48 : decide (48 ≤ x.toNat) <;> cases h57 : decide (x.toNat ≤ 57) <;>
    cases h5f : decide (x.toNat = 0x5F) <;> simp_all

/-- No white space character is a value character of `SMR URL:`. -/
theorem space_not_smrChar (x : Char) (h : isJsSpace x = true) : smrChar x = false := by
  rw [← classTest_smr]
  simp only [isJsSpace, Bool.or_eq_true, Bool.and_eq_true, beq_iff_eq,
    decide_eq_true_eq] at h
  simp only [classTest, List.any_cons, List.any_nil, ClassAtom.test, isJsWord, isJsDigit,
    Bool.or_false, Bool.or_eq_false_iff, Bool.and_eq_false_iff, decide_eq_false_iff_not,
    beq_eq_false_iff_ne, ne_eq]
  omega

/-- No white space character is a value character of `Customer_Tel:`. -/
theorem space_not_telChar (x : Char) (h : isJsSpace x = true) : telChar x = false := by
  have h1 : x.isDigit = (decide (48 ≤ x.toNat) && decide (x.toNat ≤ 57)) := by
    simp only [Char.isDigit, Char.toNat, ge_iff_le, UInt32.le_def]
    rfl
  have h2 : x ≠ '+' := by
    intro hx
    subst hx
    exact absurd h (by decide)
  simp only [isJsSpace, Bool.or_eq_true, Bool.and_eq_true, beq_iff_eq,
    decide_eq_true_eq] at h
  simp only [telChar, h1, Bool.or_eq_false_iff, beq_eq_false_iff_ne, ne_eq,
    Bool.and_eq_false_iff, decide_eq_false_iff_not]
  exact ⟨h2, by omega⟩

/-- The capture of `SMR URL:` is never the text `N/A`. -/
theorem smrUrl_capture_ne_NA (body : String) : reSmrUrl.capture body ≠ some "N/A" := by
  intro h
  unfold Regex.capture at h
  cases hs : searchFrom reSmrUrl body.data with
  | none => simp [hs] at h
  | some cap =>
    simp [hs] at h
    have hc := searchFrom_capture reSmrUrl (fun c => c ≠ '/')
      (by
        intro cls hmem c hcls
        have hcl : cls = [.word, .digit] := by
          simp [reSmrUrl, lits] at hmem
          exact hmem
        subst hcl
        intro hce
        subst hce
        exact absurd hcls (by decide))
      body.data cap hs
    have hcap : cap = ['N', '/', 'A'] := by
      have := congrArg String.data h
      simpa using this
    subst hcap
    exact hc '/' (by simp) rfl

/-- The capture of `Customer_Tel:` is never the text `N/A`. -/
theorem customerTel_capture_ne_NA (body : String) :
    reCustomerTel.capture body ≠ some "N/A" := by
  intro h
  unfold Regex.capture at h
  cases hs : searchFrom reCustomerTel body.data with
  | none => simp [hs] at h
  | some cap =>
    simp [hs] at h
    have hc := searchFrom_capture reCustomerTel (fun c => c ≠ '/')
      (by
        intro cls hmem c hcls
        have hcl : cls = [.char '+', .digit] := by
          simp [reCustomerTel, lits] at hmem
          exact hmem
        subst hcl
        intro hce
        subst hce
        exact absurd hcls (by decide))
      body.data cap hs
    have hcap : cap = ['N', '/', 'A'] := by
      have := congrArg String.data h
      simpa using this
    subst hcap
    exact hc '/' (by simp) rfl

/-- The capture of `/SMR URL:\s*([\w\d]+)/i` is the value of the leftmost
occurrence of `SMR URL:`. -/
theorem smrUrl_capture_iff (body value : String) :
    reSmrUrl.capture body = some value ↔
      LeftmostValue "SMR URL:" smrChar body.data value.data :=
  capture_some_iff "SMR URL:" [.word, .digit] smrChar classTest_smr space_not_smrChar
    body value

/-- The pattern `/SMR URL:\s*([\w\d]+)/i` has no match exactly when the text
holds no occurrence of `SMR URL:`. -/
theorem smrUrl_none_iff (body : String) :
    reSmrUrl.capture body = none ↔ NoOccurrence "SMR URL:" smrChar body.data :=
  capture_none_iff "SMR URL:" [.word, .digit] smrChar classTest_smr space_not_smrChar body

/-- The capture of `/Customer_Tel:\s*([\+\d]+)/i` is the value of the leftmost
occurrence of `Customer_Tel:`. -/
theorem customerTel_capture_iff (body value : String) :
    reCustomerTel.capture body = some value ↔
      LeftmostValue "Customer_Tel:" telChar body.data value.data :=
  capture_some_iff "Customer_Tel:" [.char '+', .digit] telChar classTest_tel
    space_not_telChar body value

/-- The pattern `/Customer_Tel:\s*([\+\d]+)/i` has no match exactly when the
text holds no occurrence of `Customer_Tel:`. -/
theorem customerTel_none_iff (body : String) :
    reCustomerTel.capture body = none ↔
      NoOccurrence "Customer_Tel:" telChar body.data :=
  capture_none_iff "Customer_Tel:" [.char '+', .digit] telChar classTest_tel
    space_not_telChar body

/-- The capture of `/Estado Actual:\s*([\w_]+)/` is the value of the leftmost
occurrence of the marker `Estado Actual:`. -/
theorem estado_capture_iff (description value : String) :
    reEstadoActual.capture description = some value ↔
      LeftmostMarker "Estado Actual:" smrChar description.data value.data :=
  capture_leftmost reEstadoActual description
    (MarkerAt "Estado Actual:" smrChar description.data)
    (fun pre value =>
      markerAt_iff "Estado Actual:" [.word, .char '_'] smrChar classTest_estado
        space_not_smrChar description.data pre value)
    value

/-- The value sent for `smrUrl`, in terms of the occurrences of `SMR URL:` in
the body. -/
theorem smrUrl_value (body : String) :
    (∀ v : String, LeftmostValue "SMR URL:" smrChar body.data v.data →
      orNA (reSmrUrl.capture body) = v) ∧
    (orNA (reSmrUrl.capture body) = "N/A" ↔ NoOccurrence "SMR URL:" smrChar body.data) ∧
    ((∃ v : String, LeftmostValue "SMR URL:" smrChar body.data v.data) ∨
      NoOccurrence "SMR URL:" smrChar body.data) := by
  refine ⟨?_, ?_, ?_⟩
  · intro v hv
    rw [(smrUrl_capture_iff body v).mpr hv]
    rfl
  · cases hc : reSmrUrl.capture body with
    | none =>
      exact ⟨fun _ => (smrUrl_none_iff body).mp hc, fun _ => rfl⟩
    | some cap =>
      constructor
      · intro h
        simp only [orNA] at h
        exact absurd (h ▸ hc) (smrUrl_capture_ne_NA body)
      · intro h
        rw [(smrUrl_none_iff body).mpr h] at hc
        cases hc
  · cases hc : reSmrUrl.capture body with
    | none => exact Or.inr ((smrUrl_none_iff body).mp hc)
    | some cap => exact Or.inl ⟨cap, (smrUrl_capture_iff body cap).mp hc⟩

/-- The value sent for `customerTel`, in terms of the occurrences of
`Customer_Tel:` in the body. -/
theorem customerTel_value (body : String) :
    (∀ v : String, LeftmostValue "Customer_Tel:" telChar body.data v.data →
      orNA (reCustomerTel.capture body) = v) ∧
    (orNA (reCustomerTel.capture body) = "N/A" ↔
      NoOccurrence "Customer_Tel:" telChar body.data) ∧
    ((∃ v : String, LeftmostValue "Customer_Tel:" telChar body.data v.data) ∨
      NoOccurrence "Customer_Tel:" telChar body.data) := by
  refine ⟨?_, ?_, ?_⟩
  · intro v hv
    rw [(customerTel_capture_iff body v).mpr hv]
    rfl
  · cases hc : reCustomerTel.capture body with
    | none =>
      exact ⟨fun _ => (customerTel_none_iff body).mp hc, fun _ => rfl⟩
    | some cap =>
      constructor
      · intro h
        simp only [orNA] at h
        exact absurd (h ▸ hc) (customerTel_capture_ne_NA body)
      · intro h
        rw [(customerTel_none_iff body).mpr h] at hc
        cases hc
  · cases hc : reCustomerTel.capture body with
    | none => exact Or.inr ((customerTel_none_iff body).mp hc)
    | some cap => exact Or.inl ⟨cap, (customerTel_capture_iff body cap).mp hc⟩

/-! ## Properties of the lookup -/

/-- Reading the status succeeds on a message that does not throw. -/
theorem matchEstado_ok (msg : Message) (h : throws msg = false) :
    ∃ st, matchEstado msg = .ok st := by
  unfold throws at h
  unfold matchEstado
  cases he : msg.embeds with
  | nil => exact ⟨none, rfl⟩
  | cons e es =>
    rw [he] at h
    cases hd : e.description with
    | none => simp [hd] at h
    | some d => exact ⟨reEstadoActual.capture d, by simp [hd]⟩

/-- A message whose marker does not carry the order id leaves the variables of
the loop as they are. -/
theorem scanStep_no_match (shopifyOrder : String) (acc : Scan) (msg : Message)
    (ht : throws msg = false) (hm : isMatch shopifyOrder msg = false) :
    scanStep shopifyOrder acc msg = .ok acc := by
  obtain ⟨st, hst⟩ := matchEstado_ok msg ht
  have hne : ¬ reShopifyOrder.capture msg.content = some shopifyOrder := by
    simpa [isMatch] using hm
  simp [scanStep, hst, hne]

/-- A message whose marker carries the order id becomes the candidate. -/
theorem scanStep_match (shopifyOrder : String) (acc : Scan) (msg : Message)
    (ht : throws msg = false) (hm : isMatch shopifyOrder msg = true) :
    ∃ st, scanStep shopifyOrder acc msg = .ok ⟨some msg, st⟩ := by
  obtain ⟨st, hst⟩ := matchEstado_ok msg ht
  have he : reShopifyOrder.capture msg.content = some shopifyOrder := by
    simpa [isMatch] using hm
  cases st with
  | none => exact ⟨acc.estadoActual, by simp [scanStep, hst, he]⟩
  | some v => exact ⟨some v, by simp [scanStep, hst, he]⟩

/-- A step of the loop succeeds on a message that does not throw. -/
theorem scanStep_ok (shopifyOrder : String) (acc : Scan) (msg : Message)
    (ht : throws msg = false) : ∃ acc1, scanStep shopifyOrder acc msg = .ok acc1 := by
  cases hm : isMatch shopifyOrder msg with
  | false => exact ⟨acc, scanStep_no_match shopifyOrder acc msg ht hm⟩
  | true =>
    obtain ⟨st, h⟩ := scanStep_match shopifyOrder acc msg ht hm
    exact ⟨_, h⟩

/-- Messages without the order id leave the variables of the loop as they
are. -/
theorem scanFrom_no_match (shopifyOrder : String) :
    ∀ (ms : List Message) (acc : Scan), (∀ m ∈ ms, throws m = false) →
      (∀ m ∈ ms, isMatch shopifyOrder m = false) →
      scanFrom shopifyOrder acc ms = .ok acc := by
  intro ms
  induction ms with
  | nil => intro acc _ _; rfl
  | cons m ms ih =>
    intro acc ht hm
    have h1 := scanStep_no_match shopifyOrder acc m (ht m (List.mem_cons_self _ _))
      (hm m (List.mem_cons_self _ _))
    simp only [scanFrom, h1]
    exact ih acc (fun x hx => ht x (List.mem_cons_of_mem _ hx))
      (fun x hx => hm x (List.mem_cons_of_mem _ hx))

/-- A message whose marker carries the order id becomes the candidate, with its
own status when it has one and the status held so far when it has none. -/
theorem scanStep_match_status (shopifyOrder : String) (acc : Scan) (msg : Message)
    (ht : throws msg = false) (hm : isMatch shopifyOrder msg = true) :
    ∃ st, scanStep shopifyOrder acc msg = .ok ⟨some msg, st⟩ ∧
      (∀ v, matchEstado msg = .ok (some v) → st = some v) ∧
      (matchEstado msg = .ok none → st = acc.estadoActual) := by
  obtain ⟨e, he⟩ := matchEstado_ok msg ht
  have hc : reShopifyOrder.capture msg.content = some shopifyOrder := by
    simpa [isMatch] using hm
  cases e with
  | none =>
    refine ⟨acc.estadoActual, by simp [scanStep, he, hc], ?_, fun _ => rfl⟩
    intro v hv
    rw [he] at hv
    cases hv
  | some w =>
    refine ⟨some w, by simp [scanStep, he, hc], ?_, ?_⟩
    · intro v hv
      rw [he] at hv
      cases hv
      rfl
    · intro hv
      rw [he] at hv
      cases hv

/-- After the loop the candidate is the last message whose marker carries the
order id, whatever precedes it; the status is its own when it has one, and the
status held at the start when it has none and no message before it carries the
order id. -/
theorem scanFrom_last_match (shopifyOrder : String) (m : Message) (post : List Message)
    (hm : isMatch shopifyOrder m = true) (htm : throws m = false)
    (htpost : ∀ x ∈ post, throws x = false)
    (hpost : ∀ x ∈ post, isMatch shopifyOrder x = false) :
    ∀ (pre : List Message) (acc : Scan), (∀ x ∈ pre, throws x = false) →
      ∃ st, scanFrom shopifyOrder acc (pre ++ m :: post) = .ok ⟨some m, st⟩ ∧
        (∀ v, matchEstado m = .ok (some v) → st = some v) ∧
        ((∀ x ∈ pre, isMatch shopifyOrder x = false) → matchEstado m = .ok none →
          st = acc.estadoActual) := by
  intro pre
  induction pre with
  | nil =>
    intro acc _
    obtain ⟨st, h, h1, h2⟩ := scanStep_match_status shopifyOrder acc m htm hm
    refine ⟨st, ?_, h1, fun _ => h2⟩
    simp only [List.nil_append, scanFrom, h]
    exact scanFrom_no_match shopifyOrder post _ htpost hpost
  | cons p pre ih =>
    intro acc ht
    have htp := ht p (List.mem_cons_self _ _)
    have htpre : ∀ x ∈ pre, throws x = false := fun x hx => ht x (List.mem_cons_of_mem _ hx)
    cases hp : isMatch shopifyOrder p with
    | false =>
      have h1 := scanStep_no_match shopifyOrder acc p htp hp
      obtain ⟨st, h, ha, hb⟩ := ih acc htpre
      refine ⟨st, ?_, ha, ?_⟩
      · simp only [List.cons_append, scanFrom, h1]
        exact h
      · intro hall
        exact hb (fun x hx => hall x (List.mem_cons_of_mem _ hx))
    | true =>
      obtain ⟨acc1, h1⟩ := scanStep_ok shopifyOrder acc p htp
      obtain ⟨st, h, ha, _⟩ := ih acc1 htpre
      refine ⟨st, ?_, ha, ?_⟩
      · simp only [List.cons_append, scanFrom, h1]
        exact h
      · intro hall
        have := hall p (List.mem_cons_self _ _)
        rw [hp] at this
        cases this

/-- While the bot is ready, a GET request for an order with an accepted origin
reaches the lookup handler. -/
theorem handleRequest_order (n : Nat) (env : Env) (shopifyOrder : String)
    (origin : Option String) (h : corsOrigin origin = .ok true) :
    (handleRequest ⟨true, n⟩ env ⟨.GET, .order shopifyOrder, origin, .none⟩).result =
      .response (orderHandler env shopifyOrder).1 := by
  simp [handleRequest, app, dispatch, Layer.applies, Layer.handle, corsLayer, h,
    Method.isGet, sendFor]

/-- When both fetches succeed and the loop completes, the lookup handler sends
the response built from the variables of the loop. -/
theorem orderHandler_scan (all : List Message) (shopifyOrder : String) (sc : Scan)
    (h : scanMessages shopifyOrder (all.take 3) = .ok sc) :
    (orderHandler (Env.ofMessages all) shopifyOrder).1 = respondScan shopifyOrder sc := by
  simp [orderHandler, Env.ofMessages, fetchMessages, h]

/-! ## Order not found -/

/-- C3 at a failing input: with the bot ready and one fetched message whose body
holds no marker and whose embed has no description, `GET /order/1042` is
answered with 500 and `{error: "Internal server error"}`, not with 404. -/
theorem not_found_embed_without_description :
    isMatch "1042" ⟨"Pedido recibido", [⟨none⟩]⟩ = false ∧
    reShopifyOrder.capture "Pedido recibido" = none ∧
    (handleRequest ⟨true, 0⟩ (Env.ofMessages [⟨"Pedido recibido", [⟨none⟩]⟩])
        ⟨.GET, .order "1042", none, .none⟩).result =
      .response ⟨500, .json [("error", .str "Internal server error")]⟩ := by
  decide

/-- When no fetched message throws and none carries the order id, the lookup
answers 404 with `{error: "Order not found"}`. -/
theorem not_found_when_readable (n : Nat) (all : List Message) (shopifyOrder : String)
    (origin : Option String) (hcors : corsOrigin origin = .ok true)
    (ht : ∀ m ∈ all.take 3, throws m = false)
    (hm : ∀ m ∈ all.take 3, isMatch shopifyOrder m = false) :
    (handleRequest ⟨true, n⟩ (Env.ofMessages all) ⟨.GET, .order shopifyOrder, origin, .none⟩).result =
      .response ⟨404, .json [("error", .str "Order not found")]⟩ := by
  rw [handleRequest_order n _ _ _ hcors,
    orderHandler_scan all shopifyOrder ⟨none, none⟩
      (scanFrom_no_match shopifyOrder _ _ ht hm)]
  rfl

/-! ## Which message is the candidate -/

/-- C4, as stated, fails: of two fetched messages that both carry the order id
`7`, the candidate is the second, and the response is built from it. -/
theorem first_match_does_not_win :
    firstMatch "7" [⟨"Shopify_order: 7\nSMR URL: FIRST\nCustomer_Tel: +111", []⟩,
        ⟨"Shopify_order: 7\nSMR URL: SECOND\nCustomer_Tel: +222", []⟩] =
      some ⟨"Shopify_order: 7\nSMR URL: FIRST\nCustomer_Tel: +111", []⟩ ∧
    scanMessages "7" [⟨"Shopify_order: 7\nSMR URL: FIRST\nCustomer_Tel: +111", []⟩,
        ⟨"Shopify_order: 7\nSMR URL: SECOND\nCustomer_Tel: +222", []⟩] =
      .ok ⟨some ⟨"Shopify_order: 7\nSMR URL: SECOND\nCustomer_Tel: +222", []⟩, none⟩ ∧
    (handleRequest ⟨true, 0⟩
        (Env.ofMessages [⟨"Shopify_order: 7\nSMR URL: FIRST\nCustomer_Tel: +111", []⟩,
          ⟨"Shopify_order: 7\nSMR URL: SECOND\nCustomer_Tel: +222", []⟩])
        ⟨.GET, .order "7", none, .none⟩).result =
      .response ⟨200, .json [("shopifyOrder", .str "7"), ("smrUrl", .str "SECOND"),
        ("estadoPedido", .null), ("customerTel", .str "+222")]⟩ := by
  decide

/-- C4, amended (last match wins): when the loop completes, the candidate is the
last fetched message whose marker carries the order id, whatever messages
precede it.  The status used is the candidate's own when it has one, and null
when it has none and no message before it carries the order id.  When the
status used is `CANCELLED_BY_BUSINESS` the response is
`{error: "CANCELLED_BY_BUSINESS"}`; otherwise it is the order record with status
200 whose `smrUrl` and `customerTel` are extracted from the body of the
candidate.  A message carries the order id when the value of the leftmost
marker `Shopify_order:` in its body (the marker, white space, the longest run of
digits) is the order id, and the status of a message is the value of the
leftmost marker `Estado Actual:` in the description of its first embed. -/
theorem last_match_wins (n : Nat) (all pre post : List Message) (m : Message)
    (shopifyOrder : String) (origin : Option String)
    (hcors : corsOrigin origin = .ok true)
    (hfetch : all.take 3 = pre ++ m :: post)
    (ht : ∀ x ∈ all.take 3, throws x = false)
    (hm : isMatch shopifyOrder m = true)
    (hpost : ∀ x ∈ post, isMatch shopifyOrder x = false) :
    ∃ st, scanMessages shopifyOrder (all.take 3) = .ok ⟨some m, st⟩ ∧
      (∀ v, matchEstado m = .ok (some v) → st = some v) ∧
      ((∀ x ∈ pre, isMatch shopifyOrder x = false) → matchEstado m = .ok none →
        st = none) ∧
      (st = some "CANCELLED_BY_BUSINESS" →
        (handleRequest ⟨true, n⟩ (Env.ofMessages all)
            ⟨.GET, .order shopifyOrder, origin, .none⟩).result =
          .response ⟨200, .json [("error", .str "CANCELLED_BY_BUSINESS")]⟩) ∧
      (st ≠ some "CANCELLED_BY_BUSINESS" →
        (handleRequest ⟨true, n⟩ (Env.ofMessages all)
            ⟨.GET, .order shopifyOrder, origin, .none⟩).result =
          .response ⟨200, .json [("shopifyOrder", .str shopifyOrder),
            ("smrUrl", .str (orNA (reSmrUrl.capture m.content))),
            ("estadoPedido", estadoJson st),
            ("customerTel", .str (orNA (reCustomerTel.capture m.content)))]⟩) ∧
      (∀ x : Message, isMatch shopifyOrder x = true ↔
        LeftmostMarker "Shopify_order:" Char.isDigit x.content.data shopifyOrder.data) ∧
      (∀ (d v : String) (es : List Embed), m.embeds = ⟨some d⟩ :: es →
        (matchEstado m = .ok (some v) ↔
          LeftmostMarker "Estado Actual:" smrChar d.data v.data)) := by
  rw [hfetch] at ht
  obtain ⟨st, hst, ha, hb⟩ := scanFrom_last_match shopifyOrder m post hm
    (ht m (by simp)) (fun x hx => ht x (by simp [hx])) hpost pre ⟨none, none⟩
    (fun x hx => ht x (by simp [hx]))
  have hscan : scanMessages shopifyOrder (all.take 3) = .ok ⟨some m, st⟩ := by
    rw [hfetch]; exact hst
  have hres := handleRequest_order n (Env.ofMessages all) shopifyOrder origin hcors
  rw [orderHandler_scan all shopifyOrder _ hscan] at hres
  refine ⟨st, hscan, ha, hb, ?_, ?_, ?_, ?_⟩
  · intro he
    rw [hres]
    simp [respondScan, he]
  · intro hne
    rw [hres]
    simp [respondScan, hne]
  · intro x
    rw [← shopifyOrder_capture_iff]
    simp [isMatch]
  · intro d v es hemb
    rw [← estado_capture_iff]
    simp [matchEstado, hemb]

/-- Witness of the amended C4: two messages carry the order id `7`; the
candidate is the second. -/
theorem last_match_wins_witness :
    (scanMessages "7"
        (List.take 3 [⟨"Shopify_order: 7\nSMR URL: FIRST", []⟩,
          ⟨"Shopify_order: 7\nSMR URL: SECOND", []⟩])).map Scan.orderInfo =
      .ok (some ⟨"Shopify_order: 7\nSMR URL: SECOND", []⟩) := by
  obtain ⟨st, h, _⟩ := last_match_wins 0
    [⟨"Shopify_order: 7\nSMR URL: FIRST", []⟩, ⟨"Shopify_order: 7\nSMR URL: SECOND", []⟩]
    [⟨"Shopify_order: 7\nSMR URL: FIRST", []⟩] [] ⟨"Shopify_order: 7\nSMR URL: SECOND", []⟩
    "7" none (by decide) (by decide) (by decide) (by decide) (by decide)
  rw [h]
  rfl

/-! ## The response for a candidate -/

/-- C5: in a lookup while ready in which the loop ends with a candidate and the
captured status `CANCELLED_BY_BUSINESS`, the response is the JSON object
`{error: "CANCELLED_BY_BUSINESS"}` with status 200, and it has none of the
fields `shopifyOrder`, `smrUrl`, `estadoPedido`, `customerTel`. -/
theorem cancelled_only_error (n : Nat) (all : List Message) (shopifyOrder : String)
    (origin : Option String) (sc : Scan)
    (hcors : corsOrigin origin = .ok true)
    (hscan : scanMessages shopifyOrder (all.take 3) = .ok sc)
    (hcand : sc.orderInfo.isSome = true)
    (hst : sc.estadoActual = some "CANCELLED_BY_BUSINESS") :
    (handleRequest ⟨true, n⟩ (Env.ofMessages all) ⟨.GET, .order shopifyOrder, origin, .none⟩).result =
      .response ⟨200, .json [("error", .str "CANCELLED_BY_BUSINESS")]⟩ ∧
    ∀ r, (handleRequest ⟨true, n⟩ (Env.ofMessages all)
        ⟨.GET, .order shopifyOrder, origin, .none⟩).result = .response r →
      r.field "shopifyOrder" = none ∧ r.field "smrUrl" = none ∧
      r.field "estadoPedido" = none ∧ r.field "customerTel" = none := by
  have hres : (handleRequest ⟨true, n⟩ (Env.ofMessages all)
      ⟨.GET, .order shopifyOrder, origin, .none⟩).result =
      .response ⟨200, .json [("error", .str "CANCELLED_BY_BUSINESS")]⟩ := by
    rw [handleRequest_order n _ _ _ hcors, orderHandler_scan all shopifyOrder sc hscan]
    cases ho : sc.orderInfo with
    | none => simp [ho] at hcand
    | some c => simp [respondScan, ho, hst]
  refine ⟨hres, ?_⟩
  intro r hr
  rw [hres] at hr
  cases hr
  decide

/-- Witness of C5: a message for order `1042` whose embed reports the
cancellation. -/
theorem cancelled_only_error_witness :
    (handleRequest ⟨true, 0⟩
        (Env.ofMessages
          [⟨"Shopify_order: 1042\nSMR URL: AB12CD\nCustomer_Tel: +5215512345678",
            [⟨some "Estado Actual: CANCELLED_BY_BUSINESS"⟩]⟩])
        ⟨.GET, .order "1042", none, .none⟩).result =
      .response ⟨200, .json [("error", .str "CANCELLED_BY_BUSINESS")]⟩ :=
  (cancelled_only_error 0
    [⟨"Shopify_order: 1042\nSMR URL: AB12CD\nCustomer_Tel: +5215512345678",
      [⟨some "Estado Actual: CANCELLED_BY_BUSINESS"⟩]⟩]
    "1042" none
    ⟨some ⟨"Shopify_order: 1042\nSMR URL: AB12CD\nCustomer_Tel: +5215512345678",
      [⟨some "Estado Actual: CANCELLED_BY_BUSINESS"⟩]⟩, some "CANCELLED_BY_BUSINESS"⟩
    (by decide) (by decide) (by decide) (by decide)).1

/-- C6: in a lookup while ready in which the loop ends with a candidate and a
captured status other than `CANCELLED_BY_BUSINESS`, the response is the order
record with status 200.  Its `smrUrl` is the capture of `/SMR URL:\s*([\w\d]+)/i`
on the body of the candidate, that is the value of the leftmost occurrence of
`SMR URL:` (the label in any letter case, white space, then the longest run of
letters, digits and `_`), and it is `N/A` exactly when the body holds no such
occurrence.  Its `customerTel` is the capture of
`/Customer_Tel:\s*([\+\d]+)/i`, the value of the leftmost occurrence of
`Customer_Tel:` (a run of `+` and digits), and it is `N/A` exactly when the body
holds no such occurrence.  The value of each field is fixed by the occurrences
of its own label alone. -/
theorem fields_default_independently (n : Nat) (all : List Message)
    (shopifyOrder : String) (origin : Option String) (cand : Message)
    (st : Option String)
    (hcors : corsOrigin origin = .ok true)
    (hscan : scanMessages shopifyOrder (all.take 3) = .ok ⟨some cand, st⟩)
    (hst : st ≠ some "CANCELLED_BY_BUSINESS") :
    ∃ smr tel : String,
      (handleRequest ⟨true, n⟩ (Env.ofMessages all)
          ⟨.GET, .order shopifyOrder, origin, .none⟩).result =
        .response ⟨200, .json [("shopifyOrder", .str shopifyOrder),
          ("smrUrl", .str smr),
          ("estadoPedido", estadoJson st),
          ("customerTel", .str tel)]⟩ ∧
      smr = orNA (reSmrUrl.capture cand.content) ∧
      tel = orNA (reCustomerTel.capture cand.content) ∧
      (∀ v : String, LeftmostValue "SMR URL:" smrChar cand.content.data v.data →
        smr = v) ∧
      (smr = "N/A" ↔ NoOccurrence "SMR URL:" smrChar cand.content.data) ∧
      ((∃ v : String, LeftmostValue "SMR URL:" smrChar cand.content.data v.data) ∨
        NoOccurrence "SMR URL:" smrChar cand.content.data) ∧
      (∀ v : String, LeftmostValue "Customer_Tel:" telChar cand.content.data v.data →
        tel = v) ∧
      (tel = "N/A" ↔ NoOccurrence "Customer_Tel:" telChar cand.content.data) ∧
      ((∃ v : String, LeftmostValue "Customer_Tel:" telChar cand.content.data v.data) ∨
        NoOccurrence "Customer_Tel:" telChar cand.content.data) := by
  obtain ⟨s1, s2, s3⟩ := smrUrl_value cand.content
  obtain ⟨t1, t2, t3⟩ := customerTel_value cand.content
  refine ⟨orNA (reSmrUrl.capture cand.content), orNA (reCustomerTel.capture cand.content),
    ?_, rfl, rfl, s1, s2, s3, t1, t2, t3⟩
  rw [handleRequest_order n _ _ _ hcors, orderHandler_scan all shopifyOrder _ hscan]
  simp [respondScan, hst]

/-- Witness of C6: the body of the candidate holds `smr url:` in lower case,
followed by two blanks and a value that ends at `-`, and no `Customer_Tel:`;
`smrUrl` is the value and `customerTel` is `N/A`. -/
theorem fields_default_independently_witness :
    (handleRequest ⟨true, 0⟩
        (Env.ofMessages [⟨"Shopify_order: 1042\nsmr url:  AB12_cd-9", []⟩])
        ⟨.GET, .order "1042", none, .none⟩).result =
      .response ⟨200, .json [("shopifyOrder", .str "1042"),
        ("smrUrl", .str "AB12_cd"),
        ("estadoPedido", .null),
        ("customerTel", .str "N/A")]⟩ := by
  obtain ⟨smr, tel, hres, hsmr, htel, _⟩ :=
    fields_default_independently 0 [⟨"Shopify_order: 1042\nsmr url:  AB12_cd-9", []⟩]
      "1042" none ⟨"Shopify_order: 1042\nsmr url:  AB12_cd-9", []⟩ none
      (by decide) (by decide) (by decide)
  rw [hres, hsmr, htel]
  decide

/-! ## Where the status comes from -/

/-- C10 at a failing input: two fetched messages carry the order id `7`, the
first with an embed `Estado Actual: DELIVERED`, the second without embed.  The
candidate is the second message, which has no status, yet `estadoPedido` of the
response is `DELIVERED`, the status of the first message. -/
theorem status_from_other_message :
    scanMessages "7"
        [⟨"Shopify_order: 7\nSMR URL: FIRST", [⟨some "Estado Actual: DELIVERED"⟩]⟩,
         ⟨"Shopify_order: 7\nSMR URL: SECOND", []⟩] =
      .ok ⟨some ⟨"Shopify_order: 7\nSMR URL: SECOND", []⟩, some "DELIVERED"⟩ ∧
    matchEstado ⟨"Shopify_order: 7\nSMR URL: SECOND", []⟩ = .ok none ∧
    (handleRequest ⟨true, 0⟩
        (Env.ofMessages
          [⟨"Shopify_order: 7\nSMR URL: FIRST", [⟨some "Estado Actual: DELIVERED"⟩]⟩,
           ⟨"Shopify_order: 7\nSMR URL: SECOND", []⟩])
        ⟨.GET, .order "7", none, .none⟩).result =
      .response ⟨200, .json [("shopifyOrder", .str "7"), ("smrUrl", .str "SECOND"),
        ("estadoPedido", .str "DELIVERED"), ("customerTel", .str "N/A")]⟩ := by
  decide

/-- A message that carries the order id and a status of its own becomes the
candidate together with that status. -/
theorem status_of_candidate (shopifyOrder : String) (acc : Scan) (msg : Message)
    (v : String) (hm : isMatch shopifyOrder msg = true)
    (hv : matchEstado msg = .ok (some v)) :
    scanStep shopifyOrder acc msg = .ok ⟨some msg, some v⟩ := by
  have he : reShopifyOrder.capture msg.content = some shopifyOrder := by
    simpa [isMatch] using hm
  simp [scanStep, hv, he]

end Bizl
